import Mathlib

/-!
# Verification of the vue-router-study core

A shallow embedding, in Lean 4, of the route-table builder, path matcher and
navigation transition engine of the `vue-router-study` repository, together
with theorems settling the specification claims about them.

The matcher and route-map builder are embedded from `src/create-matcher.js`
(which also carries `create-route-map.js`); the transition engine from the
history base class (`history/base.js`); hook registration from `src/index.js`.
Utility modules (`util/route.js`, `util/location.js`, `util/params.js`,
`util/async.js`, `util/resolve-components.js`) and the external
`path-to-regexp` library are not part of the provided sources; the definitions
standing in for them are modelled from the specification and are marked
`Modelled from the spec:` in their doc comments.

JavaScript data is embedded as follows: objects used as string-keyed maps are
association lists (`List (String × α)`, first binding wins, insertion keeps
order, and the code never overwrites an existing binding without checking
first); arrays are `List`s; `undefined`/`null`-able values are `Option`s;
functions used as identities (guards, hooks, component handlers, rendered
instances) are opaque `Nat` tokens, since the code only ever compares them by
reference or calls them as opaque steps.
-/

namespace VRouter

/-- String-keyed maps (JS plain objects used as dictionaries). -/
abbrev Dict (α : Type) := List (String × α)

/-- `d[k]` on a JS object used as a map: first binding for `k`, if any. -/
def dictGet (d : Dict α) (k : String) : Option α :=
  (d.find? (fun p => p.1 == k)).map (·.2)

/-- `d[k] = v` on a map that is only ever written when `k` is absent
(`create-route-map.js` guards every write with a presence check, so append
order is also JS key-insertion order). -/
def dictSet (d : Dict α) (k : String) (v : α) : Dict α :=
  d ++ [(k, v)]

theorem dictGet_set_same (d : Dict α) (k : String) (v : α)
    (h : dictGet d k = none) : dictGet (dictSet d k v) k = some v := by
  induction d with
  | nil => simp [dictGet, dictSet]
  | cons p rest ih =>
    simp only [dictGet, dictSet, List.find?] at *
    by_cases hk : p.1 == k
    · simp [hk] at h
    · simp only [hk] at h ⊢
      exact ih h

theorem dictGet_set_preserved (d : Dict α) (k k' : String) (v : α) (r : α)
    (h : dictGet d k' = some r) : dictGet (dictSet d k v) k' = some r := by
  induction d with
  | nil => simp [dictGet] at h
  | cons p rest ih =>
    simp only [dictGet, dictSet, List.find?] at *
    by_cases hk : p.1 == k'
    · simp [hk] at h ⊢; exact h
    · simp only [hk] at h ⊢
      exact ih h

/-! ## Hook registration (`src/index.js`, `registerHook`)

`beforeEach`, `beforeResolve` and `afterEach` all delegate to `registerHook`:

    function registerHook (list, fn) {
      list.push(fn)
      return () => {
        const i = list.indexOf(fn)
        if (i > -1) list.splice(i, 1)
      }
    }

Hook functions are compared by JS reference identity (`indexOf` uses `===`),
so they are embedded as opaque `Nat` tokens. -/

/-- `registerHook`'s direct effect: `list.push(fn)`. -/
def registerHook (list : List Nat) (fn : Nat) : List Nat :=
  list ++ [fn]

/-- The deregistration closure returned by `registerHook`:
`const i = list.indexOf(fn); if (i > -1) list.splice(i, 1)`.
JS `indexOf` yields `-1` when absent; Lean's `List.indexOf` yields the
length, so `i > -1` becomes `i < list.length`. -/
def unregisterHook (list : List Nat) (fn : Nat) : List Nat :=
  if list.indexOf fn < list.length then list.eraseIdx (list.indexOf fn) else list

theorem unregisterHook_eq_erase (l : List Nat) (fn : Nat) :
    unregisterHook l fn = l.erase fn := by
  induction l with
  | nil => simp [unregisterHook]
  | cons a rest ih =>
    by_cases h : a = fn
    · subst h
      simp [unregisterHook, List.indexOf_cons_self, List.erase_cons_head,
        List.eraseIdx]
    · have hbe : (a == fn) = false := beq_false_of_ne h
      have h1 : (a :: rest).indexOf fn = rest.indexOf fn + 1 := by
        simp [List.indexOf_cons, hbe]
      have h2 : (a :: rest).erase fn = a :: rest.erase fn := by
        simp [List.erase_cons, hbe]
      rw [unregisterHook, h1, h2, ← ih, unregisterHook]
      by_cases hlt : rest.indexOf fn < rest.length
      · rw [if_pos (by simp only [List.length_cons]; omega :
          rest.indexOf fn + 1 < (a :: rest).length), if_pos hlt]
        rfl
      · rw [if_neg (by simp only [List.length_cons]; omega :
          ¬ rest.indexOf fn + 1 < (a :: rest).length), if_neg hlt]

/-! ## Wildcard re-ordering (`create-route-map.js`)

The loop at the end of `createRouteMap`:

    for (let i = 0, l = pathList.length; i < l; i++) {
      if (pathList[i] === '*') {
        pathList.push(pathList.splice(i, 1)[0])
        l--
        i--
      }
    }

Scanning left to right, each `'*'` entry is removed and appended after all
remaining entries (the shrinking bound `l--` keeps appended copies from being
scanned again, and `i--` re-examines the index vacated by the splice); the
appended `'*'` entries therefore end up in encounter order. -/

/-- Worker for `ensureWildcardLast`: `stars` accumulates the `'*'` entries
spliced out so far, most recent first; they are emitted (in encounter order)
after the scan runs off the end. -/
def ensureWildcardLastGo : List String → List String → List String
  | [], stars => stars.reverse
  | p :: rest, stars =>
    if p = "*" then ensureWildcardLastGo rest (p :: stars)
    else p :: ensureWildcardLastGo rest stars

/-- The wildcard re-ordering loop of `createRouteMap`. -/
def ensureWildcardLast (l : List String) : List String :=
  ensureWildcardLastGo l []

theorem ensureWildcardLastGo_spec (l stars : List String) :
    ensureWildcardLastGo l stars =
      l.filter (fun p => p ≠ "*") ++ stars.reverse ++ l.filter (fun p => p = "*") := by
  induction l generalizing stars with
  | nil => simp [ensureWildcardLastGo]
  | cons p rest ih =>
    by_cases h : p = "*"
    · subst h
      simp [ensureWildcardLastGo, ih]
    · simp [ensureWildcardLastGo, h, ih]

/-- The loop is a stable partition: non-`'*'` entries in order, then `'*'`
entries in order. -/
theorem ensureWildcardLast_eq_partition (l : List String) :
    ensureWildcardLast l =
      l.filter (fun p => p ≠ "*") ++ l.filter (fun p => p = "*") := by
  simp [ensureWildcardLast, ensureWildcardLastGo_spec]

/-! ## Path / query utilities

`util/path.js` and `util/query.js` are not among the provided sources; the
definitions below are modelled from the spec (§4.2: a raw string target is
parsed into path/query/hash components; relative paths resolve against the
current route's path honoring the append flag; a Location's `fullPath` is the
path with serialized query and hash). -/

/-- Query maps: ordered key/value bindings (spec §3, "ordered multi-valued
key mapping"). -/
abbrev QueryMap := List (String × String)

/-- Param maps: parameter name to string value (spec §3). -/
abbrev Params := List (String × String)

/-- Modelled from the spec: `cleanPath` of `util/path.js` (absent from the
sources), which collapses each `"//"` into `"/"` (one non-overlapping global
replacement pass). -/
def cleanPathGo : List Char → List Char
  | [] => []
  | '/' :: '/' :: rest => '/' :: cleanPathGo rest
  | c :: rest => c :: cleanPathGo rest

/-- `cleanPath`: collapse double slashes. -/
def cleanPath (s : String) : String :=
  String.mk (cleanPathGo s.data)

/-- Worker for `splitOnChar`. -/
def splitOnCharGo (c : Char) : List Char → List Char → List String
  | [], acc => [String.mk acc.reverse]
  | x :: rest, acc =>
    if x = c then String.mk acc.reverse :: splitOnCharGo c rest []
    else splitOnCharGo c rest (x :: acc)

/-- JS `String.prototype.split` with a one-character separator (the only
kind the embedded code uses): `""` splits to `[""]`, and separators at the
ends produce empty fields. -/
def splitOnChar (c : Char) (s : String) : List String :=
  splitOnCharGo c s.data []

/-- JS `Array.prototype.join` with a one-character separator. -/
def joinSep (c : Char) : List String → String
  | [] => ""
  | [x] => x
  | x :: xs => x ++ String.mk [c] ++ joinSep c xs

/-- Split a string at the first occurrence of `c`: the part before, and
(when `c` occurs) the part after it. -/
def splitFirstGo (c : Char) : List Char → List Char × Option (List Char)
  | [] => ([], none)
  | x :: rest =>
    if x = c then ([], some rest)
    else
      let (a, b) := splitFirstGo c rest
      (x :: a, b)

/-- Modelled from the spec: `parsePath` of `util/path.js` (absent), splitting
a raw string into path, query (text after the first `?`) and hash (text from
the first `#` on, kept with its leading `#`). -/
def parsePath (s : String) : String × String × String :=
  let (beforeHash, hashPart) := splitFirstGo '#' s.data
  let hash := match hashPart with
    | some h => String.mk ('#' :: h)
    | none => ""
  let (pathPart, queryPart) := splitFirstGo '?' beforeHash
  (String.mk pathPart, (queryPart.map String.mk).getD "", hash)

/-- Modelled from the spec: query-string parsing (`util/query.js`, absent):
`"a=1&b=2"` becomes ordered bindings; empty string parses to no bindings. -/
def parseQuery (s : String) : QueryMap :=
  if s = "" then []
  else
    (splitOnChar '&' s).map fun kv =>
      match splitOnChar '=' kv with
      | [] => ("", "")
      | [k] => (k, "")
      | k :: v :: _ => (k, v)

/-- Modelled from the spec: query serialization (`util/query.js`, absent):
empty query serializes to `""`, otherwise `?k=v&…` in binding order. -/
def stringifyQuery (q : QueryMap) : String :=
  if q.isEmpty then ""
  else "?" ++ joinSep '&' (q.map fun p => p.1 ++ "=" ++ p.2)

/-- Modelled from the spec: a Route's `fullPath` is the path with the
serialized query and the hash appended (spec §3). -/
def getFullPath (path : String) (query : QueryMap) (hash : String) : String :=
  path ++ stringifyQuery query ++ hash

/-- Process the segments of a relative path against a base-segment stack:
`".."` pops, `"."` is skipped, anything else is pushed (spec §4.2,
parent-relative navigation; `util/path.js` is absent). -/
def resolveSegs (stack : List String) : List String → List String
  | [] => stack
  | ".." :: rest => resolveSegs stack.dropLast rest
  | "." :: rest => resolveSegs stack rest
  | seg :: rest => resolveSegs (stack ++ [seg]) rest

/-- Modelled from the spec: `resolvePath` of `util/path.js` (absent).
An absolute `relative` is returned as is; a `?`/`#` first character appends
to the base; otherwise the path is resolved against the base's segment stack
(dropping the base's last segment unless appending onto a directory),
handling `..` and `.`, and is re-rooted with a leading slash. -/
def resolvePath (relative base : String) (append : Bool) : String :=
  match relative.data with
  | [] => base
  | c :: _ =>
    if c = '/' then relative
    else if c = '?' ∨ c = '#' then base ++ relative
    else
      let stack := splitOnChar '/' base
      let stack := if !append ∨ stack.getLast? = some "" then stack.dropLast else stack
      let segments := splitOnChar '/' relative
      let stack := resolveSegs stack segments
      let stack := if stack.head? = some "" then stack else "" :: stack
      joinSep '/' stack

/-! ## Compiled path patterns

The route compiler delegates to the external `path-to-regexp` library.
Modelled from the spec (§3 `compiledMatcher`): the compiled form of a path
template both tests a concrete path for a match and exposes the ordered list
of named parameter slots. A template is split on `/` into literal segments,
`:name` / `:name?` parameter segments (a parameter captures one nonempty
segment; the `?` modifier makes it skippable), and a trailing `*` wildcard
that captures the whole remainder. The wildcard's slot carries the empty
name, modelling `path-to-regexp`'s falsy numeric key that `matchRoute` maps
to the fallback key `pathMatch`. -/

/-- One parameter slot of a compiled path pattern. -/
structure RKey where
  name : String
  optional : Bool
deriving DecidableEq, Repr

/-- One segment of a parsed path template. -/
inductive TplSeg where
  | lit (s : String)
  | param (name : String) (optional : Bool)
  | star
deriving DecidableEq, Repr

/-- A compiled path pattern: the parsed template segments plus the ordered
parameter slots (`regex.keys` in the source). -/
structure RouteRegExp where
  segs : List TplSeg
  keys : List RKey
deriving DecidableEq, Repr

/-- Parse one template segment. -/
def parseTplSeg (s : String) : TplSeg :=
  if s = "*" then .star
  else
    match s.data with
    | ':' :: rest =>
      let name := String.mk rest
      if name.data.getLast? = some '?' then .param (String.mk name.data.dropLast) true
      else .param name false
    | _ => .lit s

/-- Parameter slots of a template-segment list, in order. -/
def tplKeys (segs : List TplSeg) : List RKey :=
  segs.filterMap fun
    | .param n opt => some ⟨n, opt⟩
    | .star => some ⟨"", false⟩
    | .lit _ => none

/-- Modelled from the spec: `compileRouteRegex` (via `path-to-regexp`).
The `pathToRegexpOptions` (strictness, case sensitivity) are not modelled. -/
def compileRouteRegex (path : String) : RouteRegExp :=
  let segs := (splitOnChar '/' path).map parseTplSeg
  { segs := segs, keys := tplKeys segs }

/-- Segment-wise pattern matching: returns the capture list (one entry per
parameter slot, `none` for a skipped optional) or `none` on no match. A
wildcard captures the `/`-joined remainder and, as in the compiled `(.*)`
group, is only meaningful in tail position. -/
def matchSegs : List TplSeg → List String → Option (List (Option String))
  | [], [] => some []
  | [], _ :: _ => none
  | .lit s :: ts, p :: ps => if p = s then matchSegs ts ps else none
  | .lit _ :: _, [] => none
  | .param _ false :: ts, p :: ps =>
    if p ≠ "" then (matchSegs ts ps).map (some p :: ·) else none
  | .param _ false :: _, [] => none
  | .param _ true :: ts, [] => (matchSegs ts []).map (none :: ·)
  | .param _ true :: ts, p :: ps =>
    match (if p ≠ "" then (matchSegs ts ps).map (some p :: ·) else none) with
    | some r => some r
    | none => (matchSegs ts (p :: ps)).map (none :: ·)
  | .star :: ts, ps =>
    if ts = [] then some [some (joinSep '/' ps)] else none

/-- Test a compiled pattern against a concrete path. -/
def regexMatch (r : RouteRegExp) (path : String) : Option (List (Option String)) :=
  matchSegs r.segs (splitOnChar '/' path)

/-! ## Locations, records and routes (`create-matcher.js`, spec §3) -/

/-- A normalized navigation target (spec §3 Location). `normalized` embeds
the `_normalized` flag; `params := none` embeds an absent/"not an object"
`params` field; `append` embeds the raw object's `append` flag. -/
structure Location where
  normalized : Bool := false
  name : Option String := none
  path : Option String := none
  query : QueryMap := []
  hash : String := ""
  params : Option Params := none
  append : Bool := false
deriving DecidableEq, Repr

/-- A raw navigation target: a bare string or a structured Location. -/
inductive RawLocation where
  | str (s : String)
  | loc (l : Location)
deriving DecidableEq, Repr

/-- A structured redirect target object; each `Option` field embeds
`hasOwnProperty`-guarded presence in `redirect()`. -/
structure RedirectObj where
  name : Option String := none
  path : Option String := none
  query : Option QueryMap := none
  hash : Option String := none
  params : Option Params := none
deriving DecidableEq, Repr

/-- The value a redirect option evaluates to: a path string, a structured
target, or anything else (the "invalid redirect option" case). -/
inductive RedirectVal where
  | str (s : String)
  | obj (o : RedirectObj)
  | other
deriving DecidableEq, Repr

/-- A record's configured `redirect` option: a static value, or a function
evaluated lazily at the redirecting hop (the source applies the user function
to the would-be Route built from the hop's location; the opaque user function
is abstracted over that location). -/
inductive RedirectSpec where
  | val (v : RedirectVal)
  | func (f : Location → RedirectVal)

/-- One compiled route record (spec §3 RouteRecord). Handlers are opaque
`Nat` tokens keyed by view-slot name; `parent` makes records an inductive
tree walked root-wards by `formatMatch`. The mutable `instances` side table
and the `props` pass-through, which the matcher never reads, are omitted. -/
inductive RouteRecord where
  | mk (path : String) (regex : RouteRegExp) (components : List (String × Nat))
    (name : Option String) (parent : Option RouteRecord)
    (matchAs : Option String) (redirect : Option RedirectSpec)
    (beforeEnter : Option Nat) (meta : Dict String)

namespace RouteRecord

def path : RouteRecord → String
  | mk p _ _ _ _ _ _ _ _ => p

def regex : RouteRecord → RouteRegExp
  | mk _ r _ _ _ _ _ _ _ => r

def components : RouteRecord → List (String × Nat)
  | mk _ _ c _ _ _ _ _ _ => c

def name : RouteRecord → Option String
  | mk _ _ _ n _ _ _ _ _ => n

def parent : RouteRecord → Option RouteRecord
  | mk _ _ _ _ p _ _ _ _ => p

def matchAs : RouteRecord → Option String
  | mk _ _ _ _ _ m _ _ _ => m

def redirect : RouteRecord → Option RedirectSpec
  | mk _ _ _ _ _ _ r _ _ => r

def beforeEnter : RouteRecord → Option Nat
  | mk _ _ _ _ _ _ _ b _ => b

def meta : RouteRecord → Dict String
  | mk _ _ _ _ _ _ _ _ m => m

end RouteRecord

/-- A fully resolved navigation result (spec §3 Route). `redirectedFrom`
keeps the original pre-redirect Location when the route was reached through
a redirect chain. -/
structure Route where
  name : Option String
  path : String
  hash : String
  query : QueryMap
  params : Params
  fullPath : String
  matched : List RouteRecord
  redirectedFrom : Option Location
  meta : Dict String

mutual

/-- Worker of `formatMatch` on a present record. -/
def formatMatchGo : RouteRecord → List RouteRecord
  | .mk p rg c n parent ma rd be me =>
    formatMatch parent ++ [.mk p rg c n parent ma rd be me]

/-- Modelled from the spec: `formatMatch` of `util/route.js` (absent) —
the matched chain walks the `parent` back-references and lists records
root-first (spec §3, "ordered sequence of RouteRecord references from root
ancestor to the deepest matched record"). -/
def formatMatch : Option RouteRecord → List RouteRecord
  | none => []
  | some r => formatMatchGo r

end

/-- Modelled from the spec: `createRoute` of `util/route.js` (absent) —
builds the immutable Route value from the deepest matched record and the
resolved location (spec §3: name from the location or the record, `fullPath`
from path/query/hash, `meta` from the deepest matched record, `matched` via
the parent chain). -/
def createRoute (record : Option RouteRecord) (location : Location)
    (redirectedFrom : Option Location) : Route :=
  { name := location.name.orElse fun _ => record.bind (·.name)
    path := location.path.getD "/"
    hash := location.hash
    query := location.query
    params := location.params.getD []
    fullPath := getFullPath (location.path.getD "/") location.query location.hash
    matched := formatMatch record
    redirectedFrom := redirectedFrom
    meta := (record.map (·.meta)).getD [] }

/-! ## Location normalization

`util/location.js` is absent from the sources. Modelled from the spec
(§4.2): an already-normalized target passes through (params defaulted); a
named target passes through with its params copied; a bare string is parsed
into path/query/hash and a relative path resolves against the current
route's path; explicit query bindings override parsed ones; params default
to the empty object. The relative-params branch (object with params but
neither name nor path) is not modelled. -/

/-- Core of `normalizeLocation` for path-style targets. -/
def normalizeFromPath (s : String) (extraQuery : QueryMap) (extraHash : String)
    (rawAppend : Bool) (current : Option Route) (append : Bool) : Location :=
  let (p, q, h) := parsePath s
  let basePath := (current.map (·.path)).getD "/"
  let path := if p ≠ "" then resolvePath p basePath (append || rawAppend) else basePath
  { normalized := true
    path := some path
    query := extraQuery ++ parseQuery q
    hash := if extraHash ≠ "" then extraHash else h }

/-- Modelled from the spec: `normalizeLocation` of `util/location.js`
(absent); see §4.2. -/
def normalizeLocation (raw : RawLocation) (current : Option Route)
    (append : Bool) : Location :=
  match raw with
  | .str s => normalizeFromPath s [] "" false current append
  | .loc l =>
    if l.normalized then l
    else if l.name.isSome then { l with params := some (l.params.getD []) }
    else normalizeFromPath (l.path.getD "") l.query l.hash l.append current append

/-! ## Parameter filling

`util/params.js` is absent from the sources. Modelled from the spec (§4.3:
fill the record's path template with the resolved params; a fill failure is
non-fatal — the reference implementation resolves it to the empty path
rather than raising to the caller). -/

/-- Fill one template segment from the params; `none` is a hard fill
failure, `some none` omits the segment (skipped optional). -/
def fillSeg (params : Params) : TplSeg → Option (Option String)
  | .lit s => some (some s)
  | .param n true => some (dictGet params n)
  | .param n false =>
    match dictGet params n with
    | some v => some (some v)
    | none => none
  | .star =>
    match dictGet params "pathMatch" with
    | some v => some (some v)
    | none => none

/-- Modelled from the spec: `fillParams` — fill a path template; any missing
required parameter makes the whole fill fail to the empty string. -/
def fillParams (path : String) (params : Params) : String :=
  let segs := (splitOnChar '/' path).map parseTplSeg
  match segs.mapM (fillSeg params) with
  | some pieces => joinSep '/' (pieces.filterMap id)
  | none => ""

/-- `matchRoute` capture write-back (`create-matcher.js` lines 211–218):
each defined capture is stored under its key's name, or under the fallback
key `pathMatch` when the key's name is falsy (the `*` group). A JS write to
an existing key keeps its position; a new key appends. -/
def paramsSet (d : Params) (k v : String) : Params :=
  if (dictGet d k).isSome then d.map (fun p => if p.1 == k then (p.1, v) else p)
  else d ++ [(k, v)]

/-- Modelled from the spec: `decodeURIComponent` applied to captures —
percent-decoding of an external JS builtin, modelled as the identity (no
claim in scope depends on the decoding itself). -/
def decodeURIComponentM (s : String) : String := s

/-- The capture loop of `matchRoute`. Captures that are `undefined` (skipped
optionals) are written as JS `undefined` properties, which no later read in
the sources distinguishes from absence; they are modelled as absent. -/
def applyCaps : List RKey → List (Option String) → Params → Params
  | k :: ks, c :: cs, params =>
    applyCaps ks cs
      (match c with
       | some v =>
         paramsSet params (if k.name = "" then "pathMatch" else k.name)
           (decodeURIComponentM v)
       | none => params)
  | _, _, params => params

/-- `matchRoute` (`create-matcher.js` lines 191–221): test the compiled
pattern and, on success, bind the captured groups into `params`. The source
mutates `params` and returns a Bool; the embedding returns the updated
params on success. -/
def matchRoute (regex : RouteRegExp) (path : String) (params : Params) :
    Option Params :=
  (regexMatch regex path).map fun caps => applyCaps regex.keys caps params

/-! ## Route table builder (`create-route-map.js`) -/

/-- One node of the declarative route configuration tree. `aliases` embeds
the `alias` option (a string or an array of strings; the empty list embeds
an absent option, over which the source's `forEach` likewise does nothing). -/
inductive RouteConfig where
  | mk (path : String) (name : Option String) (component : Option Nat)
    (components : Option (List (String × Nat))) (children : List RouteConfig)
    (redirect : Option RedirectSpec) (aliases : List String)
    (beforeEnter : Option Nat) (meta : Dict String)

namespace RouteConfig

def path : RouteConfig → String
  | mk p _ _ _ _ _ _ _ _ => p

def name : RouteConfig → Option String
  | mk _ n _ _ _ _ _ _ _ => n

def component : RouteConfig → Option Nat
  | mk _ _ c _ _ _ _ _ _ => c

def components : RouteConfig → Option (List (String × Nat))
  | mk _ _ _ c _ _ _ _ _ => c

def children : RouteConfig → List RouteConfig
  | mk _ _ _ _ c _ _ _ _ => c

def redirect : RouteConfig → Option RedirectSpec
  | mk _ _ _ _ _ r _ _ _ => r

def aliases : RouteConfig → List String
  | mk _ _ _ _ _ _ a _ _ => a

def beforeEnter : RouteConfig → Option Nat
  | mk _ _ _ _ _ _ _ b _ => b

def meta : RouteConfig → Dict String
  | mk _ _ _ _ _ _ _ _ m => m

end RouteConfig

mutual

/-- Size measure for the builder's recursion: counts the node, its alias
strings, and its subtree. -/
def cfgSize : RouteConfig → Nat
  | .mk _ _ _ _ children _ aliases _ _ => 2 + 2 * aliases.length + cfgSizeList children

/-- Sum of `cfgSize` over a configuration list. -/
def cfgSizeList : List RouteConfig → Nat
  | [] => 0
  | c :: cs => cfgSize c + cfgSizeList cs

end

theorem cfgSize_ge_two (c : RouteConfig) : 2 ≤ cfgSize c := by
  cases c with
  | mk p n co cos children r aliases b m =>
    simp only [cfgSize]
    omega

theorem cfgSize_lt_cons (c : RouteConfig) (cs : List RouteConfig) :
    cfgSize c < 1 + cfgSizeList (c :: cs) := by
  simp only [cfgSizeList]
  omega

theorem cfgSizeList_tail_lt (c : RouteConfig) (cs : List RouteConfig) :
    1 + cfgSizeList cs < 1 + cfgSizeList (c :: cs) := by
  have := cfgSize_ge_two c
  simp only [cfgSizeList]
  omega

theorem aliasCfgSize_lt (a : String) (rest : List String)
    (children : List RouteConfig) :
    cfgSize (RouteConfig.mk a none none none children none [] none []) <
      1 + 2 * (a :: rest).length + cfgSizeList children := by
  simp only [cfgSize, List.length_cons, List.length_nil]
  omega

/-- **`normalizePath`** (`create-route-map.js` lines 441–450): strip one
trailing slash unless strict, keep absolute paths, return non-child paths,
and concatenate child paths onto the parent's. -/
def normalizePath (path : String) (parent : Option RouteRecord)
    (strict : Bool) : String :=
  let path :=
    if !strict ∧ path.data.getLast? = some '/' then String.mk path.data.dropLast
    else path
  if path.data.head? = some '/' then path
  else
    match parent with
    | none => path
    | some par => cleanPath (par.path ++ "/" ++ path)

/-- The three lookup structures owned by the Route Table (spec §3): ordered
path list, path→record map, name→record map. -/
structure RMaps where
  pathList : List String
  pathMap : Dict RouteRecord
  nameMap : Dict RouteRecord

/-- The empty table seed (`[]` / `Object.create(null)`). -/
def RMaps.empty : RMaps := ⟨[], [], []⟩

mutual

/-- **`addRouteRecord`** (`create-route-map.js` lines 284–414): compile one
configuration node into a record, recurse into children (with this record as
parent, and with the alias-derived `matchAs` prefix carried onto children of
alias nodes), register the path only when not already present (first
registration wins), expand aliases into synthesized sibling configurations,
and finally register the name only when not already taken. Development-only
assertions and warnings have no run-time effect and are not embedded. -/
def addRouteRecord (m : RMaps) (route : RouteConfig)
    (parent : Option RouteRecord) (matchAs : Option String) : RMaps :=
  match route with
  | .mk rpath rname rcomponent rcomponents rchildren rredirect raliases
      rbeforeEnter rmeta =>
    let normalizedPath := normalizePath rpath parent false
    let record : RouteRecord := .mk normalizedPath
      (compileRouteRegex normalizedPath)
      (rcomponents.getD [("default", rcomponent.getD 0)])
      rname parent matchAs rredirect rbeforeEnter rmeta
    let m := addRouteChildren m rchildren record matchAs
    let m :=
      if (dictGet m.pathMap record.path).isNone then
        { m with pathList := m.pathList ++ [record.path]
                 pathMap := dictSet m.pathMap record.path record }
      else m
    let m := addRouteAliases m raliases rchildren parent
      (if record.path = "" then "/" else record.path)
    match rname with
    | some n =>
      if (dictGet m.nameMap n).isNone then
        { m with nameMap := dictSet m.nameMap n record }
      else m
    | none => m
termination_by cfgSize route
decreasing_by
  · simp only [cfgSize]
    omega
  · simp only [cfgSize]
    omega

/-- The `route.children.forEach` recursion of `addRouteRecord`: each child
gets the current record as parent and, for alias nodes, the `matchAs` prefix
`cleanPath(matchAs + '/' + child.path)`. -/
def addRouteChildren (m : RMaps) (children : List RouteConfig)
    (record : RouteRecord) (matchAs : Option String) : RMaps :=
  match children with
  | [] => m
  | child :: rest =>
    let childMatchAs := matchAs.map fun ma => cleanPath (ma ++ "/" ++ child.path)
    let m := addRouteRecord m child (some record) childMatchAs
    addRouteChildren m rest record matchAs
termination_by 1 + cfgSizeList children
decreasing_by
  · exact cfgSize_lt_cons _ _
  · exact cfgSizeList_tail_lt _ _

/-- The alias expansion of `addRouteRecord`: each alias string becomes a
synthesized configuration with the alias path and the same children,
registered with the same parent and with `matchAs` set to the real record's
path. -/
def addRouteAliases (m : RMaps) (aliases : List String)
    (children : List RouteConfig) (parent : Option RouteRecord)
    (recordPath : String) : RMaps :=
  match aliases with
  | [] => m
  | a :: rest =>
    let aliasRoute : RouteConfig := .mk a none none none children none [] none []
    let m := addRouteRecord m aliasRoute parent (some recordPath)
    addRouteAliases m rest children parent recordPath
termination_by 1 + 2 * aliases.length + cfgSizeList children
decreasing_by
  · exact aliasCfgSize_lt _ _ _
  · simp only [List.length_cons]
    omega

end

/-- **`createRouteMap`** (`create-route-map.js` lines 233–282): fold the
configuration list into the (possibly pre-seeded) maps, then move wildcard
paths to the end of the path list. The development-only missing-leading-slash
warning has no run-time effect and is not embedded. -/
def createRouteMap (routes : List RouteConfig) (old : RMaps) : RMaps :=
  let m := routes.foldl (fun acc r => addRouteRecord acc r none none) old
  { m with pathList := ensureWildcardLast m.pathList }

/-! ## The Matcher (`create-matcher.js`)

`match`, `redirect`, `alias` and `_createRoute` are mutually recursive
through redirect and alias resolution; the JS originals can diverge on
cyclic redirect/alias configurations, so the embedding threads a fuel
parameter, every mutual call consuming one unit. A run that exhausts its
fuel falls back to the non-matching Route for its location — every theorem
below either holds for all fuel or is stated with enough fuel. -/

/-- The `currentRoute.params` backfill loop of the `match` name branch
(`create-matcher.js` lines 55–61): each current-route binding is copied only
when its key is not yet in the location's params and is one of the record's
required parameter names. -/
def backfillParams (lparams : Params) (curParams : Params)
    (paramNames : List String) : Params :=
  curParams.foldl
    (fun acc kv =>
      if (dictGet acc kv.1).isNone ∧ paramNames.contains kv.1 then
        acc ++ [(kv.1, kv.2)]
      else acc)
    lparams

/-- `resolveRecordPath` (`create-matcher.js` lines 223–225). -/
def resolveRecordPath (path : String) (record : RouteRecord) : String :=
  resolvePath path ((record.parent.map (·.path)).getD "/") true

/-- The `pathList` scan of `match` (lines 69–76): walk the ordered path list
and return the first record whose pattern matches, together with the params
the capture loop produced. A path in the list without a map entry cannot
arise from the builder and is skipped. -/
def scanFirstMatch (tbl : RMaps) (paths : List String) (path : String)
    (params : Params) : Option (String × RouteRecord × Params) :=
  match paths with
  | [] => none
  | p :: rest =>
    match dictGet tbl.pathMap p with
    | none => scanFirstMatch tbl rest path params
    | some record =>
      match matchRoute record.regex path params with
      | some params' => some (p, record, params')
      | none => scanFirstMatch tbl rest path params

/-- The four mutually recursive matcher operations at one fuel level,
bundled so that consuming one unit of fuel unfolds in a single step. -/
structure MatcherFns where
  matchF : RMaps → RawLocation → Option Route → Option Location → Route
  createRouteF :
    RMaps → Option RouteRecord → Location → Option Location → Route
  redirectF : RMaps → RouteRecord → Location → Route
  aliasF : RMaps → RouteRecord → Location → String → Route

/-- Fuel-exhaustion fallbacks: the non-matching Route at the call's
location. -/
def matcherBase : MatcherFns where
  matchF := fun _ raw currentRoute redirectedFrom =>
    createRoute none (normalizeLocation raw currentRoute false) redirectedFrom
  createRouteF := fun _ _ location redirectedFrom =>
    createRoute none location redirectedFrom
  redirectF := fun _ _ location => createRoute none location none
  aliasF := fun _ _ location _ => createRoute none location none

/-- One step of the mutual recursion of `match` / `_createRoute` /
`redirect` / `alias` (`create-matcher.js`): each field is that source
function's body, with every mutual call going through the previous fuel
level `prev`. See `matchM`, `createRouteM`, `redirectM`, `aliasM` below for
the per-function documentation. -/
def matcherStep (prev : MatcherFns) : MatcherFns where
  matchF := fun tbl raw currentRoute redirectedFrom =>
    let location := normalizeLocation raw currentRoute false
    match location.name with
    | some name =>
      match dictGet tbl.nameMap name with
      | none => prev.createRouteF tbl none location none
      | some record =>
        let paramNames :=
          (record.regex.keys.filter (fun k => !k.optional)).map (·.name)
        let lparams := location.params.getD []
        let lparams :=
          match currentRoute with
          | some c => backfillParams lparams c.params paramNames
          | none => lparams
        let location := { location with
          params := some lparams
          path := some (fillParams record.path lparams) }
        prev.createRouteF tbl (some record) location redirectedFrom
    | none =>
      match location.path with
      | some p =>
        if p ≠ "" then
          let location := { location with params := some [] }
          match scanFirstMatch tbl tbl.pathList p [] with
          | some (_, record, params') =>
            prev.createRouteF tbl (some record)
              { location with params := some params' } redirectedFrom
          | none => prev.createRouteF tbl none location none
        else prev.createRouteF tbl none location none
      | none => prev.createRouteF tbl none location none
  createRouteF := fun tbl record location redirectedFrom =>
    match record with
    | some r =>
      if r.redirect.isSome then
        prev.redirectF tbl r (redirectedFrom.getD location)
      else
        match r.matchAs with
        | some ma => prev.aliasF tbl r location ma
        | none => createRoute record location redirectedFrom
    | none => createRoute none location redirectedFrom
  redirectF := fun tbl record location =>
    let rd : RedirectVal :=
      match record.redirect with
      | some (.func f) => f location
      | some (.val v) => v
      | none => .other
    let rd : RedirectVal :=
      match rd with
      | .str s => .obj { path := some s }
      | x => x
    match rd with
    | .obj re =>
      let query := re.query.getD location.query
      let hash := re.hash.getD location.hash
      let params := re.params.getD (location.params.getD [])
      match re.name with
      | some name =>
        prev.matchF tbl
          (.loc { normalized := true, name := some name, query := query
                  hash := hash, params := some params })
          none (some location)
      | none =>
        match re.path with
        | some path =>
          let rawPath := resolveRecordPath path record
          let resolvedPath := fillParams rawPath params
          prev.matchF tbl
            (.loc { normalized := true, path := some resolvedPath
                    query := query, hash := hash })
            none (some location)
        | none => prev.createRouteF tbl none location none
    | _ => prev.createRouteF tbl none location none
  aliasF := fun tbl _record location matchAs =>
    let aliasedPath := fillParams matchAs (location.params.getD [])
    match prev.matchF tbl
        (.loc { normalized := true, path := some aliasedPath }) none none with
    | .mk _ _ _ _ aliasedParams _ aliasedMatched _ _ =>
      prev.createRouteF tbl aliasedMatched.getLast?
        { location with params := some aliasedParams } none

/-- The matcher operations with `fuel` units of mutual recursion
available. -/
def matcherAt : Nat → MatcherFns
  | 0 => matcherBase
  | fuel + 1 => matcherStep (matcherAt fuel)

/-- **`match`** (`create-matcher.js` lines 29–80): normalize the raw target;
resolve by name (with required-param backfill and template fill) or by
scanning the ordered path list; classify the resolved record via
`_createRoute`; a target with neither name nor usable path yields the
non-matching Route. -/
def matchM (fuel : Nat) (tbl : RMaps) (raw : RawLocation)
    (currentRoute : Option Route) (redirectedFrom : Option Location) : Route :=
  (matcherAt fuel).matchF tbl raw currentRoute redirectedFrom

/-- **`_createRoute`** (lines 167–182): classify the resolved record —
redirect records resolve their target (carrying `redirectedFrom || location`
as the first cause), alias records resolve the aliased path, and everything
else builds a plain Route. -/
def createRouteM (fuel : Nat) (tbl : RMaps) (record : Option RouteRecord)
    (location : Location) (redirectedFrom : Option Location) : Route :=
  (matcherAt fuel).createRouteF tbl record location redirectedFrom

/-- **`redirect`** (lines 82–144): evaluate the redirect option (a function
is applied lazily at the hop), coerce a string result to a path target,
resolve a named target through the name map or a path target through
relative resolution and param fill — in both cases re-entering `match` with
`redirectedFrom` set to this hop's first-cause location — and reduce an
invalid option to the non-matching Route. -/
def redirectM (fuel : Nat) (tbl : RMaps) (record : RouteRecord)
    (location : Location) : Route :=
  (matcherAt fuel).redirectF tbl record location

/-- **`alias`** (lines 146–165): fill the alias's `matchAs` target path,
re-match it, and build the Route from the aliased match's deepest record,
reusing its params — note the original `redirectedFrom` is not carried
through this call. -/
def aliasM (fuel : Nat) (tbl : RMaps) (_record : RouteRecord)
    (location : Location) (matchAs : String) : Route :=
  (matcherAt fuel).aliasF tbl _record location matchAs

theorem matchM_succ (fuel : Nat) (tbl : RMaps) (raw : RawLocation)
    (currentRoute : Option Route) (redirectedFrom : Option Location) :
    matchM (fuel + 1) tbl raw currentRoute redirectedFrom =
      (let location := normalizeLocation raw currentRoute false
      match location.name with
      | some name =>
        match dictGet tbl.nameMap name with
        | none => createRouteM fuel tbl none location none
        | some record =>
          let paramNames :=
            (record.regex.keys.filter (fun k => !k.optional)).map (·.name)
          let lparams := location.params.getD []
          let lparams :=
            match currentRoute with
            | some c => backfillParams lparams c.params paramNames
            | none => lparams
          let location := { location with
            params := some lparams
            path := some (fillParams record.path lparams) }
          createRouteM fuel tbl (some record) location redirectedFrom
      | none =>
        match location.path with
        | some p =>
          if p ≠ "" then
            let location := { location with params := some [] }
            match scanFirstMatch tbl tbl.pathList p [] with
            | some (_, record, params') =>
              createRouteM fuel tbl (some record)
                { location with params := some params' } redirectedFrom
            | none => createRouteM fuel tbl none location none
          else createRouteM fuel tbl none location none
        | none => createRouteM fuel tbl none location none) := rfl

theorem createRouteM_succ (fuel : Nat) (tbl : RMaps)
    (record : Option RouteRecord) (location : Location)
    (redirectedFrom : Option Location) :
    createRouteM (fuel + 1) tbl record location redirectedFrom =
      (match record with
      | some r =>
        if r.redirect.isSome then
          redirectM fuel tbl r (redirectedFrom.getD location)
        else
          match r.matchAs with
          | some ma => aliasM fuel tbl r location ma
          | none => createRoute record location redirectedFrom
      | none => createRoute none location redirectedFrom) := rfl

theorem redirectM_succ (fuel : Nat) (tbl : RMaps) (record : RouteRecord)
    (location : Location) :
    redirectM (fuel + 1) tbl record location =
      (let rd : RedirectVal :=
        match record.redirect with
        | some (.func f) => f location
        | some (.val v) => v
        | none => .other
      let rd : RedirectVal :=
        match rd with
        | .str s => .obj { path := some s }
        | x => x
      match rd with
      | .obj re =>
        let query := re.query.getD location.query
        let hash := re.hash.getD location.hash
        let params := re.params.getD (location.params.getD [])
        match re.name with
        | some name =>
          matchM fuel tbl
            (.loc { normalized := true, name := some name, query := query
                    hash := hash, params := some params })
            none (some location)
        | none =>
          match re.path with
          | some path =>
            let rawPath := resolveRecordPath path record
            let resolvedPath := fillParams rawPath params
            matchM fuel tbl
              (.loc { normalized := true, path := some resolvedPath
                      query := query, hash := hash })
              none (some location)
          | none => createRouteM fuel tbl none location none
      | _ => createRouteM fuel tbl none location none) := rfl

theorem aliasM_succ (fuel : Nat) (tbl : RMaps) (record : RouteRecord)
    (location : Location) (matchAs : String) :
    aliasM (fuel + 1) tbl record location matchAs =
      (let aliasedPath := fillParams matchAs (location.params.getD [])
      match matchM fuel tbl
          (.loc { normalized := true, path := some aliasedPath })
          none none with
      | .mk _ _ _ _ aliasedParams _ aliasedMatched _ _ =>
        createRouteM fuel tbl aliasedMatched.getLast?
          { location with params := some aliasedParams } none) := rfl

/-! ## The transition engine (`history/base.js`)

`transitionTo`/`confirmTransition` drive a cooperative, callback-suspended
pipeline. The embedding has two views of the same code:

* an *event-trace* view (`navStep`/`runTrace`), where each event is one
  re-entry into the engine — the entry of `confirmTransition` for a fresh
  route object, one `iterator` step of a navigation's guard queue resuming
  with the value its guard passed to `next`, or the final completion block
  after both queues drained — used for properties about interleaved
  navigations; and
* a *sequential* view (`confirmTransition`), which runs one navigation's two
  guard queues to completion or first abort, modelling `runQueue` of
  `util/async.js` (absent from the sources; modelled from spec §5: a
  strictly sequential single-active-step pipeline that stops at the first
  non-continue outcome).

Route objects are compared by JS reference identity in `this.pending !==
route`; each `confirmTransition` call site is therefore tagged with a fresh
`Nat` navigation token standing for its route object's identity. -/

/-- Modelled from the spec: `isSameRoute` of `util/route.js` (absent) —
route-equality is "same path/query/hash/params" (spec §4.4 step 2). -/
def isSameRouteM (a b : Route) : Bool :=
  a.path == b.path && a.query == b.query && a.hash == b.hash &&
    a.params == b.params

/-- The duplicate-navigation test of `confirmTransition` (lines 129–134):
route-equal to current and with equal matched-chain length. -/
def isDuplicateNav (target current : Route) : Bool :=
  isSameRouteM target current && target.matched.length == current.matched.length

/-- The classification of the value `abort` receives: nothing (a superseded
navigation), `false` from a guard, a genuine error value from a guard (the
values `isError` of `util/warn.js` recognizes), or the `NavigationDuplicated`
condition. -/
inductive AbortArg where
  | noArg
  | falseVal
  | errVal (e : Nat)
  | duplicated
deriving DecidableEq, Repr

/-- Externally observable engine effects. -/
inductive OutEvent where
  /-- `this.ensureURL(push)` — ask the URL-sync collaborator to push
  (`true`) or replace (`false`/no argument) the current entry. -/
  | ensureURL (push : Bool)
  /-- one registered error observer (`errorCbs`) invoked with the error. -/
  | errorObs (e : Nat)
  /-- the navigation's `onAbort` callback invoked with the classified
  value. -/
  | abortCb (nav : Nat) (arg : AbortArg)
  /-- `onComplete(route)` reached: `updateRoute` runs, committing the
  navigation. -/
  | commit (nav : Nat)
  /-- a guard redirect: `this.push(to)` / `this.replace(to)`. -/
  | pushTo
  | replaceTo
deriving DecidableEq, Repr

/-- The engine state the claims observe: the committed current Route, the
identity of the pending navigation's route object, and the registered error
observers. -/
structure EngineState where
  current : Route
  pending : Option Nat
  errorCbs : List Nat

/-- What a guard passes to its `next` callback: continue, `false`, an error
value, or a redirect target (optionally marked replace). -/
inductive GuardOutcome where
  | cont
  | nextFalse
  | nextError (e : Nat)
  | nextRedirect (replace : Bool)
deriving DecidableEq, Repr

/-- One engine re-entry. -/
inductive NavEvent where
  /-- `confirmTransition` entered for a fresh route object `r` tagged
  `nav`. -/
  | start (nav : Nat) (r : Route)
  /-- one `iterator` step of navigation `nav`'s queue, its guard resuming
  with outcome `o`. -/
  | guardStep (nav : Nat) (o : GuardOutcome)
  /-- the completion block after both of `nav`'s queues drained (lines
  202–217). -/
  | finish (nav : Nat) (r : Route)

/-- The `abort` closure of `confirmTransition` (lines 111–127): a real
error that is not `NavigationDuplicated` is delivered to every registered
error observer (or surfaced as a console diagnostic when none are
registered), then `onAbort` is invoked with the value. -/
def abortOuts (s : EngineState) (nav : Nat) (arg : AbortArg) : List OutEvent :=
  (match arg with
   | .errVal e => s.errorCbs.map fun _ => OutEvent.errorObs e
   | _ => []) ++ [.abortCb nav arg]

/-- One engine re-entry (`history/base.js`):

* `start` — lines 108–157: the duplicate check aborts with
  `NavigationDuplicated` after an `ensureURL()` replace; otherwise
  `this.pending = route`.
* `guardStep` — lines 159–193: the `iterator` first compares
  `this.pending !== route` and aborts with no value if superseded; otherwise
  the guard's `next` value either continues, aborts with `ensureURL(true)`
  and the value, aborts with an error delivered to error observers, or
  aborts and re-enters `push`/`replace` for a redirect.
* `finish` — lines 202–217: the final check compares `this.pending !==
  route` and aborts if superseded; otherwise `this.pending = null` and
  `onComplete(route)` commits via `updateRoute`. -/
def navStep (s : EngineState) (ev : NavEvent) : EngineState × List OutEvent :=
  match ev with
  | .start nav r =>
    if isDuplicateNav r s.current then
      (s, OutEvent.ensureURL false :: abortOuts s nav .duplicated)
    else ({ s with pending := some nav }, [])
  | .guardStep nav o =>
    if s.pending ≠ some nav then (s, abortOuts s nav .noArg)
    else
      match o with
      | .cont => (s, [])
      | .nextFalse => (s, OutEvent.ensureURL true :: abortOuts s nav .falseVal)
      | .nextError e => (s, abortOuts s nav (.errVal e))
      | .nextRedirect repl =>
        (s, abortOuts s nav .noArg ++ [if repl then .replaceTo else .pushTo])
  | .finish nav r =>
    if s.pending ≠ some nav then (s, abortOuts s nav .noArg)
    else ({ s with pending := none, current := r },
      [.commit nav, .ensureURL false])

/-- Run a sequence of engine re-entries, accumulating observable effects. -/
def runTrace (s : EngineState) : List NavEvent → EngineState × List OutEvent
  | [] => (s, [])
  | ev :: rest =>
    ((runTrace (navStep s ev).1 rest).1,
      (navStep s ev).2 ++ (runTrace (navStep s ev).1 rest).2)

/-- One guard queue of a single navigation run sequentially (`runQueue` of
`util/async.js`, absent; modelled from spec §5): each step is one
`guardStep` re-entry, and the queue stops at the first outcome that is not
*continue* (the iterator then never calls the executor's `next`). Returns
the effects and whether the queue ran to completion. -/
def runGuardQueue (s : EngineState) (nav : Nat) :
    List GuardOutcome → List OutEvent × Bool
  | [] => ([], true)
  | o :: rest =>
    match o with
    | .cont =>
      ((navStep s (.guardStep nav .cont)).2 ++ (runGuardQueue s nav rest).1,
        (runGuardQueue s nav rest).2)
    | _ => ((navStep s (.guardStep nav o)).2, false)

/-- **`confirmTransition`** (lines 108–219) for one navigation whose guards
resolve to the outcome lists `q1` (first queue) and `q2` (second queue,
entering guards plus resolve hooks): duplicate check, pending assignment,
the two sequential queues, then the final pending check and commit. -/
def confirmTransition (s : EngineState) (nav : Nat) (r : Route)
    (q1 q2 : List GuardOutcome) : EngineState × List OutEvent :=
  if isDuplicateNav r s.current then
    (s, OutEvent.ensureURL false :: abortOuts s nav .duplicated)
  else
    let s1 : EngineState := { s with pending := some nav }
    if (runGuardQueue s1 nav q1).2 then
      if (runGuardQueue s1 nav q2).2 then
        ((navStep s1 (.finish nav r)).1,
          (runGuardQueue s1 nav q1).1 ++ (runGuardQueue s1 nav q2).1 ++
            (navStep s1 (.finish nav r)).2)
      else (s1, (runGuardQueue s1 nav q1).1 ++ (runGuardQueue s1 nav q2).1)
    else (s1, (runGuardQueue s1 nav q1).1)

/-! ## Guard-queue assembly (`history/base.js` lines 140–156, 253–341)

`confirmTransition` diffs the two matched chains with `resolveQueue` and
concatenates five guard stages. The engine-side view of a matched record
keeps exactly the fields the pipeline reads: the per-slot component
definitions holding the in-component guard options, the per-slot bound
rendered instances, and the route-scoped `beforeEnter` guard. Records are
diffed by JS reference identity (`current[i] !== next[i]`), embedded as
value equality on this engine-side record type (the token `id` keeps
distinct records distinguishable). A component guard option is a single
guard or an array of guards (`Array.isArray(guard)` in `extractGuards`). -/

/-- A component guard option: one guard or an array of guards. -/
inductive GuardVal where
  | one (g : Nat)
  | many (gs : List Nat)
deriving DecidableEq, Repr

/-- The component-definition fields `extractGuard` reads
(`def.options[key]`). -/
structure ComponentDef where
  beforeRouteLeave : Option GuardVal := none
  beforeRouteUpdate : Option GuardVal := none
  beforeRouteEnter : Option GuardVal := none
deriving DecidableEq, Repr

/-- The record fields the guard pipeline reads. -/
structure NavRecord where
  id : Nat
  components : List (String × ComponentDef)
  instances : List (String × Nat)
  beforeEnter : Option Nat := none
deriving DecidableEq, Repr

/-- First index at which the two chains diverge (the `for` loop of
`resolveQueue`, lines 261–268: out-of-range indexes read as `undefined`, so
the scan also breaks where either chain ends). -/
def divergeIdx [DecidableEq α] : List α → List α → Nat
  | a :: as, b :: bs => if a = b then divergeIdx as bs + 1 else 0
  | _, _ => 0

/-- The three chain segments `resolveQueue` returns. -/
structure ResolvedQueues (α : Type) where
  updated : List α
  activated : List α
  deactivated : List α

/-- **`resolveQueue`** (lines 253–281): `updated` is the candidate chain
before the divergence point, `activated` the candidate chain from it,
`deactivated` the current chain from it. -/
def resolveQueue [DecidableEq α] (current next : List α) :
    ResolvedQueues α :=
  { updated := next.take (divergeIdx current next)
    activated := next.drop (divergeIdx current next)
    deactivated := current.drop (divergeIdx current next) }

/-- A guard bound to its rendered instance by `bindGuard` (lines 321–327). -/
structure BoundG where
  guard : Nat
  inst : Nat
deriving DecidableEq, Repr

/-- `bindGuard`: a guard binds to a live instance; with no instance the
bound value is `undefined` (later skipped by `runQueue`). -/
def bindGuard (g : Nat) (inst : Option Nat) : Option BoundG :=
  inst.map fun i => ⟨g, i⟩

/-- One element of the `flatMapComponents` result for a (record, slot)
pair: no guard on the component (`undefined` stays in the array), one bound
guard, or an array of bound guards. -/
inductive GuardItem where
  | noGuard
  | single (x : Option BoundG)
  | multiple (xs : List (Option BoundG))
deriving DecidableEq, Repr

/-- Modelled from the spec: `flatMapComponents` of
`util/resolve-components.js` (absent) — apply the extraction to every
(record, slot) pair, records in chain order and slots in definition order,
one result element per pair. -/
def componentItems (records : List NavRecord)
    (sel : ComponentDef → Option GuardVal) : List GuardItem :=
  records.flatMap fun m =>
    m.components.map fun kc =>
      match sel kc.2 with
      | none => .noGuard
      | some (.one g) => .single (bindGuard g (dictGet m.instances kc.1))
      | some (.many gs) =>
        .multiple (gs.map fun g => bindGuard g (dictGet m.instances kc.1))

/-- `flatten` (one-level concat): array elements are spliced, plain elements
(including `undefined`) kept. -/
def flattenItems : List GuardItem → List (Option BoundG)
  | [] => []
  | .noGuard :: rest => none :: flattenItems rest
  | .single x :: rest => x :: flattenItems rest
  | .multiple xs :: rest => xs ++ flattenItems rest

/-- **`extractGuards`** (lines 283–300): per-(record, slot) extraction,
element-level reversal when requested, then one-level flatten. -/
def extractGuardsE (records : List NavRecord)
    (sel : ComponentDef → Option GuardVal) (rev : Bool) :
    List (Option BoundG) :=
  flattenItems (if rev then (componentItems records sel).reverse
    else componentItems records sel)

/-- **`extractLeaveGuards`** (lines 313–315): `beforeRouteLeave` from the
deactivated records, reversed. -/
def extractLeaveGuards (deactivated : List NavRecord) : List (Option BoundG) :=
  extractGuardsE deactivated (·.beforeRouteLeave) true

/-- **`extractUpdateHooks`** (lines 317–319): `beforeRouteUpdate` from the
updated records, forward. -/
def extractUpdateHooks (updated : List NavRecord) : List (Option BoundG) :=
  extractGuardsE updated (·.beforeRouteUpdate) false

/-- One entry of the assembled guard queue. -/
inductive QItem where
  /-- an in-component guard bound to its rendered instance. -/
  | bound (g : Nat) (inst : Nat)
  /-- a global `beforeEach` hook (`router.beforeHooks`). -/
  | globalHook (g : Nat)
  /-- a route-scoped `beforeEnter` guard of an activated record. -/
  | enterGuard (g : Nat)
  /-- the `resolveAsyncComponents(activated)` step. -/
  | asyncResolve (records : List Nat)
deriving DecidableEq, Repr

/-- The queue assembly of `confirmTransition` (lines 144–156): leave guards
of the deactivated records (reversed), global before hooks, update hooks of
the updated records, `beforeEnter` of each activated record, then the
async-component resolution step. -/
def assembleQueue (current next : List NavRecord)
    (beforeHooks : List (Option Nat)) : List (Option QItem) :=
  (extractLeaveGuards (resolveQueue current next).deactivated).map
      (fun ob => ob.map fun b => QItem.bound b.guard b.inst)
    ++ beforeHooks.map (fun h => h.map QItem.globalHook)
    ++ (extractUpdateHooks (resolveQueue current next).updated).map
      (fun ob => ob.map fun b => QItem.bound b.guard b.inst)
    ++ (resolveQueue current next).activated.map
      (fun m => m.beforeEnter.map QItem.enterGuard)
    ++ [some (QItem.asyncResolve
        ((resolveQueue current next).activated.map (·.id)))]

/-- Modelled from the spec: `runQueue` of `util/async.js` (absent; spec §5,
"strictly sequential, single-active-step pipeline") observed as the ordered
list of steps actually invoked: falsy queue entries are skipped
(`if (queue[index])`), a step continuing (`f` true) advances to the next
index, and any other outcome stops the run (second component `false`). -/
def runQueueSteps (f : QItem → Bool) : List (Option QItem) → List QItem × Bool
  | [] => ([], true)
  | none :: rest => runQueueSteps f rest
  | some g :: rest =>
    if f g then (g :: (runQueueSteps f rest).1, (runQueueSteps f rest).2)
    else ([g], false)

/-! # Claims -/

/-! ## C10 — hook registration and deregistration -/

/-- **C10**: `beforeEach`/`beforeResolve`/`afterEach` register through
`registerHook`, which appends the hook and returns a deregistration
function; invoking it removes exactly the first occurrence of the hook from
the list, and is a no-op when the hook is no longer present. -/
theorem registerHook_removal_spec :
    (∀ (list : List Nat) (fn : Nat), registerHook list fn = list ++ [fn]) ∧
    (∀ (list : List Nat) (fn : Nat), fn ∈ list →
      ∃ l₁ l₂, fn ∉ l₁ ∧ list = l₁ ++ fn :: l₂ ∧
        unregisterHook list fn = l₁ ++ l₂) ∧
    (∀ (list : List Nat) (fn : Nat), fn ∉ list →
      unregisterHook list fn = list) := by
  refine ⟨fun l fn => rfl, fun l fn h => ?_, fun l fn h => ?_⟩
  · obtain ⟨l₁, l₂, h1, h2, h3⟩ := List.exists_erase_eq h
    exact ⟨l₁, l₂, h1, h2, by rw [unregisterHook_eq_erase]; exact h3⟩
  · rw [unregisterHook_eq_erase, List.erase_of_not_mem h]

/-- Witness for C10 at a concrete hook list. -/
theorem registerHook_removal_spec_witness :
    ((3 : Nat) ∈ [3, 5, 3] ∧
      ∃ l₁ l₂, (3 : Nat) ∉ l₁ ∧ [3, 5, 3] = l₁ ++ 3 :: l₂ ∧
        unregisterHook [3, 5, 3] 3 = l₁ ++ l₂) ∧
    ((4 : Nat) ∉ [3, 5, 3] ∧ unregisterHook [3, 5, 3] 4 = [3, 5, 3]) :=
  ⟨⟨by decide, registerHook_removal_spec.2.1 [3, 5, 3] 3 (by decide)⟩,
    ⟨by decide, registerHook_removal_spec.2.2 [3, 5, 3] 4 (by decide)⟩⟩

/-! ## C4 — wildcard ordering and matching priority -/

theorem scanFirstMatch_prefix_fails (tbl : RMaps) (l1 l2 : List String)
    (path : String) (params : Params) (p : String) (rec : RouteRecord)
    (ps : Params)
    (hscan : scanFirstMatch tbl (l1 ++ l2) path params = some (p, rec, ps))
    (hp : p ∉ l1) :
    ∀ q ∈ l1, ∀ r, dictGet tbl.pathMap q = some r →
      matchRoute r.regex path params = none := by
  induction l1 with
  | nil => intro q hq; simp at hq
  | cons q0 rest ih =>
    intro q hq r hr
    simp only [List.cons_append, scanFirstMatch] at hscan
    have hp0 : p ≠ q0 := fun h => hp (h ▸ List.mem_cons_self q0 rest)
    have hp' : p ∉ rest := fun hmem => hp (List.mem_cons_of_mem q0 hmem)
    rcases List.mem_cons.mp hq with hq | hq
    · subst hq
      simp only [hr] at hscan
      cases hmr : matchRoute r.regex path params with
      | none => rfl
      | some ps' =>
        simp only [hmr] at hscan
        exact absurd (by injection hscan with h; exact (congrArg Prod.fst h).symm)
          hp0
    · cases hq0 : dictGet tbl.pathMap q0 with
      | none =>
        simp only [hq0] at hscan
        exact ih hscan hp' q hq r hr
      | some r0 =>
        simp only [hq0] at hscan
        cases hmr0 : matchRoute r0.regex path params with
        | none =>
          simp only [hmr0] at hscan
          exact ih hscan hp' q hq r hr
        | some ps0 =>
          simp only [hmr0] at hscan
          exact absurd (by injection hscan with h; exact (congrArg Prod.fst h).symm)
            hp0

/-- **C4**: `createRouteMap` leaves the path list stably partitioned —
non-wildcard entries first in registration order, then the `'*'` entries in
registration order — and consequently, when the priority scan of `match`
settles on a `'*'` entry, every non-wildcard record in the table failed to
match the path, regardless of registration order. -/
theorem wildcard_last_and_lowest_priority :
    (∀ (routes : List RouteConfig) (old : RMaps),
      (createRouteMap routes old).pathList =
        (routes.foldl (fun acc r => addRouteRecord acc r none none) old).pathList.filter
            (fun p => p ≠ "*") ++
          (routes.foldl (fun acc r => addRouteRecord acc r none none) old).pathList.filter
            (fun p => p = "*")) ∧
    (∀ (tbl : RMaps) (path : String) (params : Params) (rec : RouteRecord)
        (ps : Params),
      tbl.pathList =
          tbl.pathList.filter (fun q => q ≠ "*") ++
            tbl.pathList.filter (fun q => q = "*") →
      scanFirstMatch tbl tbl.pathList path params = some ("*", rec, ps) →
      ∀ q ∈ tbl.pathList, q ≠ "*" → ∀ r, dictGet tbl.pathMap q = some r →
        matchRoute r.regex path params = none) := by
  constructor
  · intro routes old
    simp [createRouteMap, ensureWildcardLast_eq_partition]
  · intro tbl path params rec ps hpart hscan q hq hqstar r hr
    rw [hpart] at hscan
    have hstar_notin : "*" ∉ tbl.pathList.filter (fun q => q ≠ "*") := by
      intro hmem
      have := List.of_mem_filter hmem
      simp at this
    have hq1 : q ∈ tbl.pathList.filter (fun q => q ≠ "*") := by
      rw [hpart] at hq
      rcases List.mem_append.mp hq with h | h
      · exact h
      · exact absurd (by simpa using List.of_mem_filter h) hqstar
    exact scanFirstMatch_prefix_fails tbl _ _ path params "*" rec ps hscan
      hstar_notin q hq1 r hr

/-- Concrete records and table for the C4 witness: a specific path and a
wildcard, wildcard last. -/
def recSpecific : RouteRecord :=
  .mk "/a" (compileRouteRegex "/a") [] none none none none none []

def recWildcard : RouteRecord :=
  .mk "*" (compileRouteRegex "*") [] none none none none none []

def tblWild : RMaps :=
  ⟨["/a", "*"], [("/a", recSpecific), ("*", recWildcard)], []⟩

/-- Witness for C4: in a table with `/a` and `*`, a path only the wildcard
matches is found at the `'*'` entry, so the theorem yields that `/a`'s
pattern fails on it. -/
theorem wildcard_last_and_lowest_priority_witness :
    matchRoute recSpecific.regex "/zzz" [] = none :=
  wildcard_last_and_lowest_priority.2 tblWild "/zzz" [] recWildcard
    [("pathMatch", "/zzz")] (by decide) (by rfl) "/a" (by decide) (by decide)
    recSpecific (by rfl)

/-! ## C8 — duplicate navigation -/

/-- **C8**: a `transitionTo` whose candidate Route is route-equal to the
current Route with an equal matched-chain length aborts immediately: the
URL-sync collaborator is asked to replace (not push) the current entry and
the abort callback receives the `NavigationDuplicated` condition; the output
list shows no error-observer delivery, no guard step, and no commit, and the
engine state (current Route and pending slot) is unchanged — independently
of whatever guards were queued. -/
theorem duplicate_navigation_abort (s : EngineState) (nav : Nat) (r : Route)
    (q1 q2 : List GuardOutcome) (hdup : isDuplicateNav r s.current = true) :
    confirmTransition s nav r q1 q2 =
      (s, [OutEvent.ensureURL false, OutEvent.abortCb nav .duplicated]) := by
  simp [confirmTransition, hdup, abortOuts]

/-- The empty start Route (`START` of `util/route.js`, modelled from the
spec: path `/`, no match). -/
def routeRoot : Route :=
  { name := none, path := "/", hash := "", query := [], params := []
    fullPath := "/", matched := [], redirectedFrom := none, meta := [] }

/-- A Route to a different path, for engine examples. -/
def routeX : Route :=
  { name := none, path := "/x", hash := "", query := [], params := []
    fullPath := "/x", matched := [], redirectedFrom := none, meta := [] }

/-- Witness for C8 at a concrete duplicate navigation. -/
theorem duplicate_navigation_abort_witness :
    confirmTransition ⟨routeRoot, none, [9]⟩ 7 routeRoot [.cont] [.nextFalse] =
      (⟨routeRoot, none, [9]⟩,
        [OutEvent.ensureURL false, OutEvent.abortCb 7 .duplicated]) :=
  duplicate_navigation_abort ⟨routeRoot, none, [9]⟩ 7 routeRoot [.cont]
    [.nextFalse] (by decide)

/-! ## C9 — guard abort leaves the current Route unchanged -/

theorem runGuardQueue_all_cont (s : EngineState) (nav : Nat)
    (q : List GuardOutcome) (hq : ∀ x ∈ q, x = GuardOutcome.cont)
    (hp : s.pending = some nav) : runGuardQueue s nav q = ([], true) := by
  induction q with
  | nil => rfl
  | cons o rest ih =>
    have ho : o = GuardOutcome.cont := hq o (List.mem_cons_self o rest)
    subst ho
    have hstep : (navStep s (.guardStep nav .cont)).2 = [] := by
      simp [navStep, hp]
    rw [runGuardQueue]
    simp only [hstep, List.nil_append,
      ih fun x hx => hq x (List.mem_cons_of_mem _ hx)]

theorem runGuardQueue_stops_at_abort (s : EngineState) (nav : Nat)
    (pre post : List GuardOutcome) (o : GuardOutcome)
    (hpre : ∀ x ∈ pre, x = GuardOutcome.cont) (ho : o ≠ GuardOutcome.cont)
    (hp : s.pending = some nav) :
    runGuardQueue s nav (pre ++ o :: post) =
      ((navStep s (.guardStep nav o)).2, false) := by
  induction pre with
  | nil =>
    cases o with
    | cont => exact absurd rfl ho
    | nextFalse => rfl
    | nextError e => rfl
    | nextRedirect b => rfl
  | cons x rest ih =>
    have hx : x = GuardOutcome.cont := hpre x (List.mem_cons_self x rest)
    subst hx
    have hstep : (navStep s (.guardStep nav .cont)).2 = [] := by
      simp [navStep, hp]
    rw [List.cons_append, runGuardQueue]
    simp only [hstep, List.nil_append]
    exact ih fun y hy => hpre y (List.mem_cons_of_mem _ hy)

theorem commit_not_in_abortOuts (s : EngineState) (n m : Nat)
    (arg : AbortArg) : OutEvent.commit n ∉ abortOuts s m arg := by
  cases arg <;> simp [abortOuts]

theorem commit_not_in_guardStep (s : EngineState) (n m : Nat)
    (o : GuardOutcome) : OutEvent.commit n ∉ (navStep s (.guardStep m o)).2 := by
  by_cases hp : s.pending = some m
  · have hcond : ¬ (s.pending ≠ some m) := fun h => h hp
    cases o with
    | cont => simp [navStep, hcond]
    | nextFalse => simp [navStep, hcond, abortOuts]
    | nextError e => simp [navStep, hcond, abortOuts]
    | nextRedirect b =>
      simp only [navStep, hcond, if_false]
      simp [abortOuts, List.mem_append]
      cases b <;> simp
  · have hcond : s.pending ≠ some m := hp
    simp only [navStep, if_pos hcond]
    exact commit_not_in_abortOuts s n m .noArg

/-- The navigation settles at the first non-continue guard outcome: the
engine state is the pre-navigation state with only the pending slot set, and
the outputs are exactly that guard步 step's abort outputs. -/
theorem confirmTransition_abort_shape (s : EngineState) (nav : Nat)
    (r : Route) (q1 q2 pre post : List GuardOutcome) (o : GuardOutcome)
    (hnodup : isDuplicateNav r s.current = false)
    (hcase : (q1 = pre ++ o :: post ∧ ∀ x ∈ pre, x = GuardOutcome.cont) ∨
      ((∀ x ∈ q1, x = GuardOutcome.cont) ∧ q2 = pre ++ o :: post ∧
        ∀ x ∈ pre, x = GuardOutcome.cont))
    (ho : o ≠ GuardOutcome.cont) :
    confirmTransition s nav r q1 q2 =
      ({ s with pending := some nav },
        (navStep { s with pending := some nav } (.guardStep nav o)).2) := by
  have hp : ({ s with pending := some nav } : EngineState).pending = some nav :=
    rfl
  rcases hcase with ⟨hq1, hpre⟩ | ⟨hq1, hq2, hpre⟩
  · subst hq1
    have h1 := runGuardQueue_stops_at_abort { s with pending := some nav } nav
      pre post o hpre ho hp
    simp [confirmTransition, hnodup, h1]
  · subst hq2
    have h1 := runGuardQueue_all_cont { s with pending := some nav } nav q1 hq1
      hp
    have h2 := runGuardQueue_stops_at_abort { s with pending := some nav } nav
      pre post o hpre ho hp
    simp [confirmTransition, hnodup, h1, h2]

/-- **C9**: when a guard of either queue calls `next(false)` or
`next(err)`, the navigation aborts: the abort callback fires with that
value, an error value is delivered to the registered error observers, the
engine's current Route is unchanged, and `updateRoute` (commit) is never
reached for that navigation. -/
theorem guard_abort_keeps_current_route (s : EngineState) (nav : Nat)
    (r : Route) (q1 q2 pre post : List GuardOutcome) (o : GuardOutcome)
    (hnodup : isDuplicateNav r s.current = false)
    (hcase : (q1 = pre ++ o :: post ∧ ∀ x ∈ pre, x = GuardOutcome.cont) ∨
      ((∀ x ∈ q1, x = GuardOutcome.cont) ∧ q2 = pre ++ o :: post ∧
        ∀ x ∈ pre, x = GuardOutcome.cont))
    (habort : o = GuardOutcome.nextFalse ∨ ∃ e, o = GuardOutcome.nextError e) :
    (confirmTransition s nav r q1 q2).1.current = s.current ∧
    OutEvent.commit nav ∉ (confirmTransition s nav r q1 q2).2 ∧
    (o = GuardOutcome.nextFalse →
      OutEvent.abortCb nav .falseVal ∈ (confirmTransition s nav r q1 q2).2) ∧
    (∀ e, o = GuardOutcome.nextError e →
      OutEvent.abortCb nav (.errVal e) ∈ (confirmTransition s nav r q1 q2).2 ∧
      (s.errorCbs ≠ [] →
        OutEvent.errorObs e ∈ (confirmTransition s nav r q1 q2).2)) := by
  have ho : o ≠ GuardOutcome.cont := by
    rcases habort with h | ⟨e, h⟩ <;> subst h <;> intro hc <;> cases hc
  have hshape := confirmTransition_abort_shape s nav r q1 q2 pre post o hnodup
    hcase ho
  rw [hshape]
  refine ⟨rfl, commit_not_in_guardStep _ nav nav o, ?_, ?_⟩
  · intro hof
    subst hof
    simp [navStep, abortOuts]
  · intro e hoe
    subst hoe
    constructor
    · simp [navStep, abortOuts]
    · intro hne
      rcases List.exists_mem_of_ne_nil s.errorCbs hne with ⟨c, hc⟩
      have hcond :
          ¬ (({ s with pending := some nav } : EngineState).pending ≠
            some nav) := by simp
      simp only [navStep, if_neg hcond, abortOuts, List.mem_append]
      exact Or.inl (List.mem_map.mpr ⟨c, hc, rfl⟩)

/-- Engine state for the C9 witness: one registered error observer. -/
def engStateW : EngineState := ⟨routeRoot, none, [11]⟩

/-- Witness for C9: a two-guard queue whose second guard passes an error. -/
theorem guard_abort_keeps_current_route_witness :
    (confirmTransition engStateW 1 routeX
        [.cont, .nextError 5] []).1.current = engStateW.current ∧
    OutEvent.commit 1 ∉ (confirmTransition engStateW 1 routeX
        [.cont, .nextError 5] []).2 ∧
    (GuardOutcome.nextError 5 = GuardOutcome.nextFalse →
      OutEvent.abortCb 1 .falseVal ∈ (confirmTransition engStateW
        1 routeX [.cont, .nextError 5] []).2) ∧
    (∀ e, GuardOutcome.nextError 5 = GuardOutcome.nextError e →
      OutEvent.abortCb 1 (.errVal e) ∈ (confirmTransition
        engStateW 1 routeX [.cont, .nextError 5] []).2 ∧
      (engStateW.errorCbs ≠ [] →
        OutEvent.errorObs e ∈ (confirmTransition engStateW 1
          routeX [.cont, .nextError 5] []).2)) :=
  guard_abort_keeps_current_route engStateW 1
    routeX [.cont, .nextError 5] [] [.cont] [] (.nextError 5) (by decide)
    (Or.inl (And.intro rfl (by decide))) (Or.inr ⟨5, rfl⟩)

/-! ## C1 — a superseded navigation never commits -/

theorem navStep_pending_ne (s : EngineState) (ev : NavEvent) (a : Nat)
    (hpend : s.pending ≠ some a) (hev : ∀ r, ev ≠ .start a r) :
    (navStep s ev).1.pending ≠ some a := by
  cases ev with
  | start b r =>
    by_cases hd : isDuplicateNav r s.current
    · simp only [navStep, if_pos hd]
      exact hpend
    · simp only [navStep, if_neg hd]
      intro h
      have hba : b = a := by injection h
      exact hev r (by rw [hba])
  | guardStep m o =>
    by_cases hp : s.pending ≠ some m
    · simp only [navStep, if_pos hp]
      exact hpend
    · cases o <;> simp only [navStep, if_neg hp] <;> exact hpend
  | finish m r =>
    by_cases hp : s.pending ≠ some m
    · simp only [navStep, if_pos hp]
      exact hpend
    · simp only [navStep, if_neg hp]
      simp

theorem navStep_no_commit (s : EngineState) (ev : NavEvent) (a : Nat)
    (hpend : s.pending ≠ some a) :
    OutEvent.commit a ∉ (navStep s ev).2 := by
  cases ev with
  | start b r =>
    by_cases hd : isDuplicateNav r s.current
    · simp only [navStep, if_pos hd]
      intro hmem
      rcases List.mem_cons.mp hmem with h | h
      · cases h
      · exact commit_not_in_abortOuts s a b .duplicated h
    · simp [navStep, if_neg hd]
  | guardStep m o => exact commit_not_in_guardStep s a m o
  | finish m r =>
    by_cases hp : s.pending ≠ some m
    · simp only [navStep, if_pos hp]
      exact commit_not_in_abortOuts s a m .noArg
    · have hma : m ≠ a := by
        intro h
        subst h
        exact hpend (by simpa using hp)
      simp only [navStep, if_neg hp]
      intro hmem
      rcases List.mem_cons.mp hmem with h | h
      · exact hma (by injection h with h1; exact h1.symm)
      · rcases List.mem_cons.mp h with h2 | h2
        · cases h2
        · simp at h2

theorem runTrace_superseded (t : List NavEvent) (s : EngineState) (a : Nat)
    (hpend : s.pending ≠ some a) (hni : ∀ r, NavEvent.start a r ∉ t) :
    (runTrace s t).1.pending ≠ some a ∧
      OutEvent.commit a ∉ (runTrace s t).2 := by
  induction t generalizing s with
  | nil =>
    refine ⟨hpend, ?_⟩
    simp [runTrace]
  | cons ev rest ih =>
    have hev : ∀ r, ev ≠ .start a r := fun r h =>
      hni r (by rw [← h]; exact List.mem_cons_self ev rest)
    have hstep := navStep_pending_ne s ev a hpend hev
    obtain ⟨ih1, ih2⟩ := ih (navStep s ev).1 hstep
      (fun r hm => hni r (List.mem_cons_of_mem _ hm))
    refine ⟨ih1, ?_⟩
    simp only [runTrace, List.mem_append]
    rintro (h | h)
    · exact navStep_no_commit s ev a hpend h
    · exact ih2 h

/-- **C1**: once navigation `b` supersedes the still-pending navigation `a`
(whose route object identity is `a` and which is never restarted), `a` can
never commit: every later guard-queue step of `a` finds the pending identity
changed and aborts with no value (the guard is not invoked), and the final
pre-commit check likewise aborts, so `a`'s completion path (`onComplete` /
`updateRoute`) is unreachable and `commit a` never appears among the
engine's outputs — only the superseding navigation can commit. -/
theorem superseded_navigation_never_commits (s0 : EngineState) (a b : Nat)
    (rb : Route) (t : List NavEvent)
    (_hinflight : s0.pending = some a)
    (hab : a ≠ b)
    (hnostart : ∀ r, NavEvent.start a r ∉ t)
    (hsup : isDuplicateNav rb s0.current = false) :
    OutEvent.commit a ∉ (runTrace s0 (NavEvent.start b rb :: t)).2 ∧
    (∀ u o v, t = u ++ NavEvent.guardStep a o :: v →
      (navStep (runTrace (navStep s0 (.start b rb)).1 u).1
          (.guardStep a o)).2 = [OutEvent.abortCb a .noArg]) := by
  have hd : ¬ isDuplicateNav rb s0.current := by simp [hsup]
  have hs1 : (navStep s0 (.start b rb)).1 = { s0 with pending := some b } := by
    simp only [navStep, if_neg hd]
  have hpend1 : (navStep s0 (.start b rb)).1.pending ≠ some a := by
    rw [hs1]
    intro h
    exact hab (by injection h with h1; exact h1.symm)
  constructor
  · simp only [runTrace, List.mem_append]
    rintro (h | h)
    · have : OutEvent.commit a ∉ (navStep s0 (.start b rb)).2 := by
        simp [navStep, if_neg hd]
      exact this h
    · exact (runTrace_superseded t (navStep s0 (.start b rb)).1 a hpend1
        hnostart).2 h
  · intro u o v ht
    have hniu : ∀ r, NavEvent.start a r ∉ u := fun r hm =>
      hnostart r (ht ▸ List.mem_append_left _ hm)
    have hpu : (runTrace (navStep s0 (.start b rb)).1 u).1.pending ≠ some a :=
      (runTrace_superseded u (navStep s0 (.start b rb)).1 a hpend1 hniu).1
    simp only [navStep] at hpu ⊢
    rw [if_pos hpu]
    simp [abortOuts]

/-- Witness for C1: navigation 0 is pending, navigation 1 supersedes it,
then both run their guard steps and completion blocks. -/
theorem superseded_navigation_never_commits_witness :
    OutEvent.commit 0 ∉ (runTrace (⟨routeRoot, some 0, []⟩ : EngineState)
      (NavEvent.start 1 routeX ::
        [NavEvent.guardStep 0 .cont, NavEvent.finish 0 routeX,
          NavEvent.guardStep 1 .cont, NavEvent.finish 1 routeX])).2 ∧
    (∀ u o v,
      [NavEvent.guardStep 0 .cont, NavEvent.finish 0 routeX,
          NavEvent.guardStep 1 .cont, NavEvent.finish 1 routeX] =
        u ++ NavEvent.guardStep 0 o :: v →
      (navStep (runTrace (navStep (⟨routeRoot, some 0, []⟩ : EngineState)
          (.start 1 routeX)).1 u).1 (.guardStep 0 o)).2 =
        [OutEvent.abortCb 0 .noArg]) :=
  superseded_navigation_never_commits ⟨routeRoot, some 0, []⟩ 0 1 routeX
    [NavEvent.guardStep 0 .cont, NavEvent.finish 0 routeX,
      NavEvent.guardStep 1 .cont, NavEvent.finish 1 routeX]
    rfl (by decide)
    (by
      intro r hm
      simp [List.mem_cons] at hm)
    (by decide)

/-! ## C7 — guard queue stage order -/

theorem runQueueSteps_all_true (q : List (Option QItem)) :
    runQueueSteps (fun _ => true) q = (q.filterMap id, true) := by
  induction q with
  | nil => rfl
  | cons x rest ih =>
    cases x with
    | none => simpa [runQueueSteps] using ih
    | some g => simp [runQueueSteps, ih]

theorem runQueueSteps_prefix (f : QItem → Bool) (q : List (Option QItem)) :
    ∃ k, (runQueueSteps f q).1 = (q.filterMap id).take k := by
  induction q with
  | nil => exact ⟨0, rfl⟩
  | cons x rest ih =>
    cases x with
    | none => simpa [runQueueSteps] using ih
    | some g =>
      by_cases hg : f g
      · obtain ⟨k, hk⟩ := ih
        exact ⟨k + 1, by simp [runQueueSteps, hg, hk]⟩
      · exact ⟨1, by simp [runQueueSteps, hg]⟩

theorem componentItems_append (l1 l2 : List NavRecord)
    (sel : ComponentDef → Option GuardVal) :
    componentItems (l1 ++ l2) sel =
      componentItems l1 sel ++ componentItems l2 sel := by
  simp [componentItems]

theorem flattenItems_append (l1 l2 : List GuardItem) :
    flattenItems (l1 ++ l2) = flattenItems l1 ++ flattenItems l2 := by
  induction l1 with
  | nil => rfl
  | cons x rest ih =>
    cases x <;> simp [flattenItems, ih]

theorem extractLeaveGuards_append (l1 l2 : List NavRecord) :
    extractLeaveGuards (l1 ++ l2) =
      extractLeaveGuards l2 ++ extractLeaveGuards l1 := by
  simp [extractLeaveGuards, extractGuardsE, componentItems_append,
    List.reverse_append, flattenItems_append]

theorem extractUpdateHooks_append (l1 l2 : List NavRecord) :
    extractUpdateHooks (l1 ++ l2) =
      extractUpdateHooks l1 ++ extractUpdateHooks l2 := by
  simp [extractUpdateHooks, extractGuardsE, componentItems_append,
    flattenItems_append]

/-- **C7**: the first guard queue runs as a strictly sequential pipeline in
exactly the stage order (a) in-component leave guards of deactivated
records, innermost (deepest) first; (b) global before hooks in registration
order; (c) in-component update hooks of updated records in forward order;
(d) route-scoped `beforeEnter` guards of activated records in forward
order; (e) the async-component resolution step. The first conjunct shows
any execution is an in-order prefix of the queue (no later step runs before
every earlier step has proceeded); the second exhibits the full invocation
order when every step continues; the third and fourth isolate the
reverse-vs-forward record order of stages (a) and (c). -/
theorem guard_queue_stage_order :
    (∀ (current next : List NavRecord) (hooks : List (Option Nat))
        (f : QItem → Bool),
      ∃ k, (runQueueSteps f (assembleQueue current next hooks)).1 =
        ((assembleQueue current next hooks).filterMap id).take k) ∧
    (∀ (current next : List NavRecord) (hooks : List (Option Nat)),
      (runQueueSteps (fun _ => true) (assembleQueue current next hooks)).1 =
        (extractLeaveGuards (resolveQueue current next).deactivated).filterMap
            (fun ob => ob.map fun b => QItem.bound b.guard b.inst)
          ++ hooks.filterMap (fun h => h.map QItem.globalHook)
          ++ (extractUpdateHooks (resolveQueue current next).updated).filterMap
            (fun ob => ob.map fun b => QItem.bound b.guard b.inst)
          ++ (resolveQueue current next).activated.filterMap
            (fun m => m.beforeEnter.map QItem.enterGuard)
          ++ [QItem.asyncResolve
            ((resolveQueue current next).activated.map (·.id))]) ∧
    (∀ l1 l2 : List NavRecord,
      extractLeaveGuards (l1 ++ l2) =
        extractLeaveGuards l2 ++ extractLeaveGuards l1) ∧
    (∀ l1 l2 : List NavRecord,
      extractUpdateHooks (l1 ++ l2) =
        extractUpdateHooks l1 ++ extractUpdateHooks l2) := by
  refine ⟨fun current next hooks f => runQueueSteps_prefix f _,
    fun current next hooks => ?_, extractLeaveGuards_append,
    extractUpdateHooks_append⟩
  rw [runQueueSteps_all_true]
  simp [assembleQueue, List.filterMap_append, List.filterMap_map,
    Function.comp]

/-! ## C2 — the Matcher is total and yields empty matches on bad input -/

/-- Structural validity of a Route (spec §3): `fullPath` is the serialized
path/query/hash, and `matched` is either empty or a root-first ancestor
chain produced by `formatMatch`. Every Route the Matcher returns is built by
`createRoute`, so this holds of every result — the JS `match` has no other
exit and never throws. -/
def routeWF (r : Route) : Prop :=
  r.fullPath = getFullPath r.path r.query r.hash ∧
  (r.matched = [] ∨ ∃ rec, r.matched = formatMatch (some rec))

theorem createRoute_routeWF (rec : Option RouteRecord) (loc : Location)
    (rf : Option Location) : routeWF (createRoute rec loc rf) := by
  refine ⟨rfl, ?_⟩
  cases rec with
  | none => exact Or.inl rfl
  | some r => exact Or.inr ⟨r, rfl⟩

theorem matcher_wf (fuel : Nat) :
    (∀ tbl raw cur rf, routeWF (matchM fuel tbl raw cur rf)) ∧
    (∀ tbl rec loc rf, routeWF (createRouteM fuel tbl rec loc rf)) ∧
    (∀ tbl rec loc, routeWF (redirectM fuel tbl rec loc)) ∧
    (∀ tbl rec loc ma, routeWF (aliasM fuel tbl rec loc ma)) := by
  induction fuel with
  | zero =>
    exact ⟨fun tbl raw cur rf => createRoute_routeWF _ _ _,
      fun tbl rec loc rf => createRoute_routeWF _ _ _,
      fun tbl rec loc => createRoute_routeWF _ _ _,
      fun tbl rec loc ma => createRoute_routeWF _ _ _⟩
  | succ n ih =>
    obtain ⟨ihm, ihc, ihr, iha⟩ := ih
    refine ⟨?_, ?_, ?_, ?_⟩
    · intro tbl raw cur rf
      rw [matchM_succ]
      dsimp only
      repeat' split
      all_goals first
        | exact ihc _ _ _ _
        | exact createRoute_routeWF _ _ _
    · intro tbl rec loc rf
      rw [createRouteM_succ]
      try dsimp only
      repeat' split
      all_goals first
        | exact ihr _ _ _
        | exact iha _ _ _ _
        | exact createRoute_routeWF _ _ _
    · intro tbl rec loc
      rw [redirectM_succ]
      try dsimp only
      repeat' split
      all_goals first
        | exact ihm _ _ _ _
        | exact ihc _ _ _ _
        | exact createRoute_routeWF _ _ _
    · intro tbl rec loc ma
      rw [aliasM_succ]
      try dsimp only
      repeat' split
      all_goals first
        | exact ihc _ _ _ _
        | exact createRoute_routeWF _ _ _

theorem createRouteM_none_matched (fuel : Nat) (tbl : RMaps) (loc : Location)
    (rf : Option Location) :
    (createRouteM fuel tbl none loc rf).matched = [] := by
  cases fuel <;> rfl

/-- **C2**: for every raw location the Matcher returns a structurally valid
Route (it has no other exit, so it never raises to its caller), and an
unmatched name, an unmatched path, or a malformed redirect target resolves
to a Route with an empty matched chain. -/
theorem matcher_total_empty_on_unmatched :
    (∀ fuel tbl raw cur rf, routeWF (matchM fuel tbl raw cur rf)) ∧
    (∀ fuel tbl raw (cur : Option Route) rf nm,
      (normalizeLocation raw cur false).name = some nm →
      dictGet tbl.nameMap nm = none →
      (matchM (fuel + 1) tbl raw cur rf).matched = []) ∧
    (∀ fuel tbl raw (cur : Option Route) rf,
      (normalizeLocation raw cur false).name = none →
      (∀ p, (normalizeLocation raw cur false).path = some p →
        scanFirstMatch tbl tbl.pathList p [] = none) →
      (matchM (fuel + 1) tbl raw cur rf).matched = []) ∧
    (∀ fuel tbl (rec : RouteRecord) loc,
      rec.redirect = some (.val .other) →
      (redirectM (fuel + 1) tbl rec loc).matched = []) ∧
    (∀ fuel tbl (rec : RouteRecord) loc (o : RedirectObj),
      rec.redirect = some (.val (.obj o)) → o.name = none → o.path = none →
      (redirectM (fuel + 1) tbl rec loc).matched = []) := by
  refine ⟨fun fuel tbl raw cur rf => (matcher_wf fuel).1 tbl raw cur rf,
    ?_, ?_, ?_, ?_⟩
  · intro fuel tbl raw cur rf nm hn hna
    rw [matchM_succ]
    dsimp only
    simp only [hn, hna]
    exact createRouteM_none_matched fuel tbl _ none
  · intro fuel tbl raw cur rf hn hscan
    rw [matchM_succ]
    dsimp only
    simp only [hn]
    cases hp : (normalizeLocation raw cur false).path with
    | none => exact createRouteM_none_matched fuel tbl _ none
    | some p =>
      by_cases hpe : p = ""
      · subst hpe
        simp only [ne_eq, not_true_eq_false, if_false]
        exact createRouteM_none_matched fuel tbl _ none
      · simp only [ne_eq, hpe, not_false_eq_true, if_true, hscan p hp]
        exact createRouteM_none_matched fuel tbl _ none
  · intro fuel tbl rec loc hrd
    rw [redirectM_succ]
    dsimp only
    simp only [hrd]
    exact createRouteM_none_matched fuel tbl _ none
  · intro fuel tbl rec loc o hrd hon hop
    rw [redirectM_succ]
    dsimp only
    simp only [hrd, hon, hop]
    exact createRouteM_none_matched fuel tbl _ none

/-- Witness for C2: a named target whose name is not in the table resolves
to a Route with an empty matched chain. -/
theorem matcher_total_empty_on_unmatched_witness :
    (matchM 3 tblWild
      (.loc { normalized := true, name := some "nope" }) none none).matched =
      [] :=
  matcher_total_empty_on_unmatched.2.1 2 tblWild
    (.loc { normalized := true, name := some "nope" }) none none "nope" rfl rfl

/-! ## C6 — named re-navigation reuses exactly the required missing params -/

theorem dictGet_cons_self (k : String) (v : α) (d : Dict α) :
    dictGet ((k, v) :: d) k = some v := by
  simp [dictGet, List.find?]

theorem dictGet_cons_ne (k1 k : String) (v : α) (d : Dict α) (h : k1 ≠ k) :
    dictGet ((k1, v) :: d) k = dictGet d k := by
  simp [dictGet, List.find?, beq_false_of_ne h]

theorem dictGet_cons (p : String × α) (d : Dict α) (k : String) :
    dictGet (p :: d) k = if p.1 == k then some p.2 else dictGet d k := by
  by_cases h : (p.1 == k) = true
  · simp [dictGet, List.find?_cons_of_pos _ h, h]
  · simp [dictGet, List.find?_cons_of_neg _ h, h]

theorem dictGet_append_single_ne (d : Dict α) (k1 k : String) (v : α)
    (h : k1 ≠ k) : dictGet (d ++ [(k1, v)]) k = dictGet d k := by
  induction d with
  | nil => simp [dictGet, List.find?, beq_false_of_ne h]
  | cons p rest ih =>
    rw [List.cons_append, dictGet_cons, dictGet_cons, ih]

/-- The backfill loop, observed through lookups: a key already present in
the location's params keeps its value; a key absent from them is filled from
the current route's params exactly when it is among the required parameter
names; every other key stays absent. -/
theorem backfill_lookup (cp : Params) (lp : Params) (names : List String)
    (k : String) :
    dictGet (backfillParams lp cp names) k =
      match dictGet lp k with
      | some v => some v
      | none => if names.contains k then dictGet cp k else none := by
  induction cp generalizing lp with
  | nil =>
    cases h : dictGet lp k with
    | some v =>
      rw [show backfillParams lp [] names = lp from rfl, h]
    | none =>
      rw [show backfillParams lp [] names = lp from rfl, h]
      show none = if names.contains k then dictGet ([] : Params) k else none
      rw [show dictGet ([] : Params) k = none from rfl, ite_self]
  | cons kv rest ih =>
    rw [show backfillParams lp (kv :: rest) names =
      backfillParams
        (if (dictGet lp kv.1).isNone ∧ names.contains kv.1 then
          lp ++ [(kv.1, kv.2)] else lp) rest names from rfl]
    by_cases hk : kv.1 = k
    · subst hk
      cases hlp : dictGet lp kv.1 with
      | some v =>
        rw [if_neg (by simp :
            ¬ ((some v : Option String).isNone = true ∧
              names.contains kv.1 = true)),
          ih lp, hlp]
      | none =>
        by_cases hc : names.contains kv.1
        · rw [if_pos (⟨rfl, hc⟩ : (none : Option String).isNone = true ∧
            names.contains kv.1 = true),
            ih,
            show (lp ++ [(kv.1, kv.2)] : Params) = dictSet lp kv.1 kv.2 from
              rfl,
            dictGet_set_same lp kv.1 kv.2 hlp]
          show some kv.2 =
            if names.contains kv.1 then dictGet (kv :: rest) kv.1 else none
          rw [if_pos hc, dictGet_cons]
          simp
        · rw [if_neg (fun h => hc h.2), ih lp, hlp]
          show (if names.contains kv.1 then dictGet rest kv.1 else none) =
            if names.contains kv.1 then dictGet (kv :: rest) kv.1 else none
          rw [if_neg hc, if_neg hc]
    · have hlp' : dictGet
          (if (dictGet lp kv.1).isNone ∧ names.contains kv.1 then
            lp ++ [(kv.1, kv.2)] else lp) k = dictGet lp k := by
        by_cases hcond : (dictGet lp kv.1).isNone ∧ names.contains kv.1
        · rw [if_pos hcond]
          exact dictGet_append_single_ne lp kv.1 k kv.2 hk
        · rw [if_neg hcond]
      rw [ih, hlp']
      cases hlpk : dictGet lp k with
      | some v => rfl
      | none =>
        show (if names.contains k then dictGet rest k else none) =
          if names.contains k then dictGet (kv :: rest) k else none
        by_cases hck : names.contains k
        · rw [if_pos hck, if_pos hck, dictGet_cons,
            if_neg (by simp [hk] : ¬ ((kv.1 == k) = true))]
        · rw [if_neg hck, if_neg hck]

theorem createRouteM_params (fuel : Nat) (tbl : RMaps) (rec : RouteRecord)
    (loc : Location) (rf : Option Location) (hrd : rec.redirect = none)
    (hma : rec.matchAs = none) :
    (createRouteM fuel tbl (some rec) loc rf).params = loc.params.getD [] := by
  cases fuel with
  | zero => rfl
  | succ n =>
    rw [createRouteM_succ]
    simp only [hrd, hma]
    rfl

/-- **C6**: matching a named route with a current Route present backfills,
after normalization, exactly the keys of `currentRoute.params` that are
absent from the target's params and among the record's required
(non-optional) parameter names — looked up key by key, a key present in the
target's params keeps its value (never overwritten), an absent required key
takes the current route's value, and every other key stays absent. -/
theorem named_match_param_backfill (fuel : Nat) (tbl : RMaps) (l : Location)
    (cur : Route) (rf : Option Location) (record : RouteRecord) (nm : String)
    (hnorm : l.normalized = true) (hname : l.name = some nm)
    (hrec : dictGet tbl.nameMap nm = some record)
    (hnored : record.redirect = none) (hnoalias : record.matchAs = none) :
    ∀ k, dictGet (matchM (fuel + 1) tbl (.loc l) (some cur) rf).params k =
      match dictGet (l.params.getD []) k with
      | some v => some v
      | none =>
        if ((record.regex.keys.filter (fun key => !key.optional)).map
            (·.name)).contains k then
          dictGet cur.params k
        else none := by
  intro k
  have hloc : normalizeLocation (.loc l) (some cur) false = l := by
    simp [normalizeLocation, hnorm]
  rw [matchM_succ]
  dsimp only
  rw [hloc]
  simp only [hname, hrec]
  rw [createRouteM_params fuel tbl record _ rf hnored hnoalias]
  simp only [Option.getD_some]
  exact backfill_lookup cur.params (l.params.getD []) _ k

/-- Named record and table for the C6 witness: `/user/:id/:tab?` with a
required `id` and an optional `tab`. -/
def recUser : RouteRecord :=
  .mk "/user/:id/:tab?" (compileRouteRegex "/user/:id/:tab?") []
    (some "user") none none none none []

def tblUser : RMaps :=
  ⟨["/user/:id/:tab?"], [("/user/:id/:tab?", recUser)], [("user", recUser)]⟩

/-- A current Route on the same parameterized branch, for the C6 witness. -/
def curUser : Route :=
  { name := some "user", path := "/user/42/info", hash := ""
    query := [], params := [("id", "42"), ("tab", "info"), ("zz", "1")]
    fullPath := "/user/42/info", matched := [recUser]
    redirectedFrom := none, meta := [] }

/-- Witness for C6 at three concrete keys: re-matching `user` omitting `id`
reuses the current `42` for the required `id`, the explicitly supplied `q`
keeps its value, and the unrelated `zz` is not copied. -/
theorem named_match_param_backfill_witness :
    dictGet (matchM 3 tblUser
        (.loc { normalized := true, name := some "user"
                params := some [("q", "7")] })
        (some curUser) none).params "id" = some "42" ∧
    dictGet (matchM 3 tblUser
        (.loc { normalized := true, name := some "user"
                params := some [("q", "7")] })
        (some curUser) none).params "q" = some "7" ∧
    dictGet (matchM 3 tblUser
        (.loc { normalized := true, name := some "user"
                params := some [("q", "7")] })
        (some curUser) none).params "zz" = none :=
  ⟨(named_match_param_backfill 2 tblUser
      { normalized := true, name := some "user", params := some [("q", "7")] }
      curUser none recUser "user" rfl rfl rfl rfl rfl "id").trans (by rfl),
   (named_match_param_backfill 2 tblUser
      { normalized := true, name := some "user", params := some [("q", "7")] }
      curUser none recUser "user" rfl rfl rfl rfl rfl "q").trans (by rfl),
   (named_match_param_backfill 2 tblUser
      { normalized := true, name := some "user", params := some [("q", "7")] }
      curUser none recUser "user" rfl rfl rfl rfl rfl "zz").trans (by rfl)⟩

/-! ## C3 — redirect chains and `redirectedFrom` -/

/-- A table containing no alias records (`matchAs` unset everywhere). -/
def NoAliasTable (tbl : RMaps) : Prop :=
  (∀ pr ∈ tbl.pathMap, (pr.2 : RouteRecord).matchAs = none) ∧
  (∀ nr ∈ tbl.nameMap, (nr.2 : RouteRecord).matchAs = none)

theorem dictGet_implies_mem (d : Dict α) (k : String) (r : α)
    (h : dictGet d k = some r) : ∃ k', (k', r) ∈ d := by
  unfold dictGet at h
  rcases Option.map_eq_some'.mp h with ⟨a, hfind, ha⟩
  refine ⟨a.1, ?_⟩
  have hmem : a ∈ d := List.mem_of_find?_eq_some hfind
  have hpair : (a.1, r) = a := by
    cases a
    simp only at ha ⊢
    rw [← ha]
  rw [hpair]
  exact hmem

theorem noAlias_pathMap (tbl : RMaps) (h : NoAliasTable tbl) (p : String)
    (r : RouteRecord) (hget : dictGet tbl.pathMap p = some r) :
    r.matchAs = none := by
  rcases dictGet_implies_mem tbl.pathMap p r hget with ⟨k', hk⟩
  exact h.1 (k', r) hk

theorem noAlias_nameMap (tbl : RMaps) (h : NoAliasTable tbl) (n : String)
    (r : RouteRecord) (hget : dictGet tbl.nameMap n = some r) :
    r.matchAs = none := by
  rcases dictGet_implies_mem tbl.nameMap n r hget with ⟨k', hk⟩
  exact h.2 (k', r) hk

theorem scanFirstMatch_pathMap (tbl : RMaps) (paths : List String)
    (path : String) (params : Params) (p : String) (rec : RouteRecord)
    (ps : Params)
    (h : scanFirstMatch tbl paths path params = some (p, rec, ps)) :
    dictGet tbl.pathMap p = some rec := by
  induction paths with
  | nil => cases h
  | cons q rest ih =>
    simp only [scanFirstMatch] at h
    cases hq : dictGet tbl.pathMap q with
    | none =>
      simp only [hq] at h
      exact ih h
    | some r0 =>
      simp only [hq] at h
      cases hm : matchRoute r0.regex path params with
      | none =>
        simp only [hm] at h
        exact ih h
      | some ps0 =>
        simp only [hm] at h
        injection h with h1
        injection h1 with ha hb
        injection hb with hc hd
        subst ha
        subst hc
        exact hq

/-- `redirectedFrom` is carried unchanged through every hop: a call with it
already set resolves (when a record is matched at all) to a Route tagged
with exactly that first-cause location — the matcher only sets it when not
already carried. Alias records are excluded: the alias branch rebuilds the
Route without the tag. -/
theorem matcher_keeps_redirectedFrom (fuel : Nat) :
    (∀ tbl raw cur L0, NoAliasTable tbl →
      (matchM fuel tbl raw cur (some L0)).matched ≠ [] →
      (matchM fuel tbl raw cur (some L0)).redirectedFrom = some L0) ∧
    (∀ tbl rec loc L0, NoAliasTable tbl →
      (∀ r', rec = some r' → r'.matchAs = none) →
      (createRouteM fuel tbl rec loc (some L0)).matched ≠ [] →
      (createRouteM fuel tbl rec loc (some L0)).redirectedFrom = some L0) ∧
    (∀ tbl rec loc, NoAliasTable tbl →
      (redirectM fuel tbl rec loc).matched ≠ [] →
      (redirectM fuel tbl rec loc).redirectedFrom = some loc) := by
  induction fuel with
  | zero =>
    refine ⟨fun tbl raw cur L0 _ _ => rfl, fun tbl rec loc L0 _ _ _ => rfl,
      fun tbl rec loc _ h => absurd rfl h⟩
  | succ n ih =>
    obtain ⟨ihm, ihc, ihr⟩ := ih
    refine ⟨?_, ?_, ?_⟩
    · intro tbl raw cur L0 hA
      rw [matchM_succ]
      dsimp only
      cases hn : (normalizeLocation raw cur false).name with
      | some nm =>
        simp only [hn]
        cases hr : dictGet tbl.nameMap nm with
        | none =>
          simp only [hr]
          intro h
          exact absurd (createRouteM_none_matched n tbl _ none) h
        | some record =>
          simp only [hr]
          intro h
          refine ihc tbl (some record) _ L0 hA (fun r' hr' => ?_) h
          injection hr' with he
          rw [← he]
          exact noAlias_nameMap tbl hA nm record hr
      | none =>
        simp only [hn]
        cases hp : (normalizeLocation raw cur false).path with
        | none =>
          simp only [hp]
          intro h
          exact absurd (createRouteM_none_matched n tbl _ none) h
        | some p =>
          simp only [hp]
          by_cases hpe : p = ""
          · subst hpe
            simp only [ne_eq, not_true_eq_false, if_false]
            intro h
            exact absurd (createRouteM_none_matched n tbl _ none) h
          · simp only [ne_eq, hpe, not_false_eq_true, if_true]
            cases hs : scanFirstMatch tbl tbl.pathList p [] with
            | none =>
              intro h
              exact absurd (createRouteM_none_matched n tbl _ none) h
            | some triple =>
              obtain ⟨q, rec2, ps2⟩ := triple
              try dsimp only
              intro h
              refine ihc tbl (some rec2) _ L0 hA (fun r' hr' => ?_) h
              injection hr' with he
              rw [← he]
              exact noAlias_pathMap tbl hA q rec2
                (scanFirstMatch_pathMap tbl _ p [] q rec2 ps2 hs)
    · intro tbl rec loc L0 hA hma
      cases rec with
      | none => intro _; rfl
      | some r =>
        rw [createRouteM_succ]
        try dsimp only
        by_cases hrd : r.redirect.isSome
        · rw [if_pos hrd]
          intro h
          exact ihr tbl r L0 hA h
        · rw [if_neg hrd]
          rw [hma r rfl]
          intro _
          rfl
    · intro tbl rec loc hA
      rw [redirectM_succ]
      dsimp only
      repeat' split
      all_goals intro h
      all_goals first
        | exact ihm _ _ _ _ hA h
        | exact absurd (createRouteM_none_matched n _ _ none) h

theorem formatMatchGo_getLast (r : RouteRecord) :
    (formatMatchGo r).getLast? = some r := by
  cases r with
  | mk p rg c n parent ma rd be me =>
    rw [formatMatchGo]
    exact List.getLast?_concat _

/-- Whenever the Matcher returns a nonempty matched chain, its deepest
record is a plain record: neither a redirect nor an alias (those are always
resolved away before `createRoute` is reached). -/
theorem matcher_deepest_record (fuel : Nat) :
    (∀ tbl raw cur rf, (matchM fuel tbl raw cur rf).matched ≠ [] →
      ∃ last, (matchM fuel tbl raw cur rf).matched.getLast? = some last ∧
        last.redirect = none ∧ last.matchAs = none) ∧
    (∀ tbl rec loc rf, (createRouteM fuel tbl rec loc rf).matched ≠ [] →
      ∃ last,
        (createRouteM fuel tbl rec loc rf).matched.getLast? = some last ∧
        last.redirect = none ∧ last.matchAs = none) ∧
    (∀ tbl rec loc, (redirectM fuel tbl rec loc).matched ≠ [] →
      ∃ last, (redirectM fuel tbl rec loc).matched.getLast? = some last ∧
        last.redirect = none ∧ last.matchAs = none) ∧
    (∀ tbl rec loc ma, (aliasM fuel tbl rec loc ma).matched ≠ [] →
      ∃ last, (aliasM fuel tbl rec loc ma).matched.getLast? = some last ∧
        last.redirect = none ∧ last.matchAs = none) := by
  induction fuel with
  | zero =>
    exact ⟨fun tbl raw cur rf h => absurd rfl h,
      fun tbl rec loc rf h => absurd rfl h,
      fun tbl rec loc h => absurd rfl h,
      fun tbl rec loc ma h => absurd rfl h⟩
  | succ n ih =>
    obtain ⟨ihm, ihc, ihr, iha⟩ := ih
    refine ⟨?_, ?_, ?_, ?_⟩
    · intro tbl raw cur rf
      rw [matchM_succ]
      try dsimp only
      repeat' split
      all_goals intro h
      all_goals exact ihc _ _ _ _ h
    · intro tbl rec loc rf
      cases rec with
      | none =>
        intro h
        exact absurd (createRouteM_none_matched (n + 1) tbl loc rf) h
      | some r =>
        rw [createRouteM_succ]
        try dsimp only
        by_cases hrd : r.redirect.isSome
        · rw [if_pos hrd]
          intro h
          exact ihr _ _ _ h
        · rw [if_neg hrd]
          have hrdn : r.redirect = none := by
            cases hh : r.redirect with
            | none => rfl
            | some v => exact absurd (by rw [hh]; rfl) hrd
          cases hma : r.matchAs with
          | some ma =>
            intro h
            exact iha _ _ _ _ h
          | none =>
            intro h
            refine ⟨r, ?_, hrdn, hma⟩
            rw [show (createRoute (some r) loc rf).matched =
              formatMatch (some r) from rfl, formatMatch]
            exact formatMatchGo_getLast r
    · intro tbl rec loc
      rw [redirectM_succ]
      try dsimp only
      repeat' split
      all_goals intro h
      all_goals first
        | exact ihm _ _ _ _ h
        | exact absurd (createRouteM_none_matched n _ _ none) h
    · intro tbl rec loc ma
      rw [aliasM_succ]
      try dsimp only
      repeat' split
      all_goals intro h
      all_goals exact ihc _ _ _ _ h

/-- **C3 (amended)**: in a table without alias records, resolving a record
with a configured redirect — a chain of any length begins this way —
either fails to match, or produces the Route of a final non-redirect record
with `redirectedFrom` equal to the first hop's location (the original
pre-redirect location), never an intermediate hop's. The amendment excludes
alias records: a chain reaching an alias record rebuilds the Route through
the alias target and drops `redirectedFrom` (see the counterexample). -/
theorem redirect_chain_first_cause (fuel : Nat) (tbl : RMaps)
    (r : RouteRecord) (location : Location)
    (hrd : r.redirect.isSome = true) (hA : NoAliasTable tbl)
    (hm : (createRouteM (fuel + 1) tbl (some r) location none).matched ≠ []) :
    (createRouteM (fuel + 1) tbl (some r) location none).redirectedFrom =
      some location ∧
    ∃ last,
      (createRouteM (fuel + 1) tbl (some r)
        location none).matched.getLast? = some last ∧
      last.redirect = none := by
  have hstep : createRouteM (fuel + 1) tbl (some r) location none =
      redirectM fuel tbl r location := by
    rw [createRouteM_succ]
    try dsimp only
    rw [if_pos hrd]
    rfl
  rw [hstep] at hm ⊢
  refine ⟨(matcher_keeps_redirectedFrom fuel).2.2 tbl r location hA hm, ?_⟩
  obtain ⟨last, h1, h2, _⟩ := (matcher_deepest_record fuel).2.2.1 tbl r
    location hm
  exact ⟨last, h1, h2⟩

/-- Records for the C3 counterexample: `/a` redirects to `/b`, `/b`
redirects to `/c`, `/c` is an alias of `/d`, and `/d` is a plain record. -/
def recD3 : RouteRecord :=
  .mk "/d" (compileRouteRegex "/d") [] none none none none none []

def recC3 : RouteRecord :=
  .mk "/c" (compileRouteRegex "/c") [] none none (some "/d") none none []

def recB3 : RouteRecord :=
  .mk "/b" (compileRouteRegex "/b") [] none none none
    (some (.val (.str "/c"))) none []

def recA3 : RouteRecord :=
  .mk "/a" (compileRouteRegex "/a") [] none none none
    (some (.val (.str "/b"))) none []

def tblChain : RMaps :=
  ⟨["/a", "/b", "/c", "/d"],
    [("/a", recA3), ("/b", recB3), ("/c", recC3), ("/d", recD3)], []⟩

set_option maxHeartbeats 1000000 in
/-- Counterexample to C3 as stated: matching `/a` runs a chain of two
redirecting records (`/a` and `/b` both carry a redirect) and resolves to
the plain record `/d`, yet `redirectedFrom` is `none` rather than the
original pre-redirect location — the final hop went through the alias
record `/c`, whose resolution rebuilds the Route without the tag. -/
theorem redirect_chain_counterexample :
    recA3.redirect.isSome = true ∧ recB3.redirect.isSome = true ∧
    (matchM 11 tblChain (.str "/a") none none).matched.map
      (fun rec => rec.path) = ["/d"] ∧
    (matchM 11 tblChain (.str "/a") none none).redirectedFrom = none := by
  have h : matchM 11 tblChain (.str "/a") none none =
      { name := none, path := "/c", hash := "", query := [], params := []
        fullPath := "/c", matched := [recD3], redirectedFrom := none
        meta := [] } := rfl
  rw [h]
  exact ⟨rfl, rfl, rfl, rfl⟩

/-- Records for the C3 witness: an alias-free chain `/x` → `/y` → `/z`. -/
def recZ3 : RouteRecord :=
  .mk "/z" (compileRouteRegex "/z") [] none none none none none []

def recY3 : RouteRecord :=
  .mk "/y" (compileRouteRegex "/y") [] none none none
    (some (.val (.str "/z"))) none []

def recX3 : RouteRecord :=
  .mk "/x" (compileRouteRegex "/x") [] none none none
    (some (.val (.str "/y"))) none []

def tblNoAlias : RMaps :=
  ⟨["/x", "/y", "/z"],
    [("/x", recX3), ("/y", recY3), ("/z", recZ3)], []⟩

/-- The first-hop location of the C3 witness. -/
def locX : Location := { normalized := true, path := some "/x" }

/-- Witness for the amended C3: the two-redirect chain `/x` → `/y` → `/z`
reports `/x`'s location as the first cause and ends at a non-redirect
record. -/
theorem redirect_chain_first_cause_witness :
    (createRouteM 9 tblNoAlias (some recX3) locX none).redirectedFrom =
      some locX ∧
    ∃ last,
      (createRouteM 9 tblNoAlias (some recX3)
        locX none).matched.getLast? = some last ∧
      last.redirect = none :=
  redirect_chain_first_cause 8 tblNoAlias recX3 locX rfl
    (by constructor <;> decide)
    (by
      rw [show (createRouteM 9 tblNoAlias (some recX3) locX none).matched =
        [recZ3] from rfl]
      simp)

/-! ## C5: first registration wins, and `addRoutes` only extends the table

`addRoutes` (`create-matcher.js` lines 24–26) re-runs `createRouteMap` on
the new configuration list seeded with the existing pathList / pathMap /
nameMap. The invariant below says every registration step only extends the
table: bindings already present are never replaced (the duplicate
registration at `create-route-map.js` lines 365–369 is dropped), and the
path list only grows by previously-unbound paths. -/

/-- Table extension: `mb` keeps every binding of `m` — path-map and
name-map lookups that succeed in `m` return the same record in `mb`, and the
path list of `mb` is the path list of `m` followed only by paths that had no
binding in `m`'s path map. -/
def keeps (m mb : RMaps) : Prop :=
  (∀ p r, dictGet m.pathMap p = some r → dictGet mb.pathMap p = some r) ∧
  (∀ n r, dictGet m.nameMap n = some r → dictGet mb.nameMap n = some r) ∧
  ∃ suffix, mb.pathList = m.pathList ++ suffix ∧
    ∀ p ∈ suffix, dictGet m.pathMap p = none

theorem keeps_refl (m : RMaps) : keeps m m :=
  ⟨fun _ _ h => h, fun _ _ h => h, [], by simp, by simp⟩

theorem keeps_trans {m1 m2 m3 : RMaps} (h12 : keeps m1 m2)
    (h23 : keeps m2 m3) : keeps m1 m3 := by
  obtain ⟨hp12, hn12, s12, hl12, hs12⟩ := h12
  obtain ⟨hp23, hn23, s23, hl23, hs23⟩ := h23
  refine ⟨fun p r h => hp23 p r (hp12 p r h),
    fun n r h => hn23 n r (hn12 n r h),
    s12 ++ s23, by rw [hl23, hl12, List.append_assoc], ?_⟩
  intro p hp
  rcases List.mem_append.mp hp with h | h
  · exact hs12 p h
  · cases h1 : dictGet m1.pathMap p with
    | none => rfl
    | some r =>
      have h2 := hp12 p r h1
      rw [hs23 p h] at h2
      exact Option.noConfusion h2

/-- The guarded path registration of `addRouteRecord` (lines 365–369) is a
table extension: a fresh path is appended, a duplicate leaves the table
untouched. -/
theorem keeps_pathRegister (m : RMaps) (record : RouteRecord) :
    keeps m
      (if (dictGet m.pathMap record.path).isNone then
        { m with pathList := m.pathList ++ [record.path]
                 pathMap := dictSet m.pathMap record.path record }
      else m) := by
  by_cases h : (dictGet m.pathMap record.path).isNone = true
  · rw [if_pos h]
    refine ⟨fun p r hp => dictGet_set_preserved _ _ _ _ _ hp,
      fun n r hn => hn, [record.path], rfl, ?_⟩
    intro p hp
    have hp' := List.mem_singleton.mp hp
    subst hp'
    exact Option.isNone_iff_eq_none.mp h
  · rw [if_neg h]
    exact keeps_refl m

/-- The guarded name registration of `addRouteRecord` (lines 404–413) is a
table extension. -/
theorem keeps_nameRegisterSome (m : RMaps) (n : String)
    (record : RouteRecord) :
    keeps m
      (if (dictGet m.nameMap n).isNone then
        { m with nameMap := dictSet m.nameMap n record }
      else m) := by
  by_cases h : (dictGet m.nameMap n).isNone = true
  · rw [if_pos h]
    exact ⟨fun p r hp => hp,
      fun n' r hn => dictGet_set_preserved _ _ _ _ _ hn, [], by simp, by simp⟩
  · rw [if_neg h]
    exact keeps_refl m

/-- Main builder invariant, by strong induction on the recursion measure:
every call of the three mutually recursive registration functions is a table
extension. -/
theorem builder_keeps (N : Nat) :
    (∀ m route parent matchAs, cfgSize route ≤ N →
      keeps m (addRouteRecord m route parent matchAs)) ∧
    (∀ m children record matchAs, 1 + cfgSizeList children ≤ N →
      keeps m (addRouteChildren m children record matchAs)) ∧
    (∀ m aliases children parent rp,
      1 + 2 * aliases.length + cfgSizeList children ≤ N →
      keeps m (addRouteAliases m aliases children parent rp)) := by
  induction N using Nat.strong_induction_on with
  | _ N ih =>
    refine ⟨?_, ?_, ?_⟩
    · intro m route parent matchAs hle
      cases route with
      | mk rpath rname rcomponent rcomponents rchildren rredirect raliases
          rbeforeEnter rmeta =>
        simp only [cfgSize] at hle
        have ihc := (ih (1 + cfgSizeList rchildren) (by omega)).2.1
        have iha :=
          (ih (1 + 2 * raliases.length + cfgSizeList rchildren) (by omega)).2.2
        cases rname with
        | none =>
          simp only [addRouteRecord]
          exact keeps_trans (keeps_trans
            (ihc m rchildren
              (RouteRecord.mk (normalizePath rpath parent false)
                (compileRouteRegex (normalizePath rpath parent false))
                (rcomponents.getD [("default", rcomponent.getD 0)]) none
                parent matchAs rredirect rbeforeEnter rmeta)
              matchAs (le_refl _))
            (keeps_pathRegister _ _))
            (iha _ raliases rchildren parent _ (le_refl _))
        | some n =>
          simp only [addRouteRecord]
          exact keeps_trans (keeps_trans (keeps_trans
            (ihc m rchildren
              (RouteRecord.mk (normalizePath rpath parent false)
                (compileRouteRegex (normalizePath rpath parent false))
                (rcomponents.getD [("default", rcomponent.getD 0)]) (some n)
                parent matchAs rredirect rbeforeEnter rmeta)
              matchAs (le_refl _))
            (keeps_pathRegister _ _))
            (iha _ raliases rchildren parent _ (le_refl _)))
            (keeps_nameRegisterSome _ n _)
    · intro m children record matchAs hle
      cases children with
      | nil =>
        simp only [addRouteChildren]
        exact keeps_refl m
      | cons child rest =>
        simp only [cfgSizeList] at hle
        have hc2 := cfgSize_ge_two child
        have ihr := (ih (cfgSize child) (by omega)).1
        have ihcr := (ih (1 + cfgSizeList rest) (by omega)).2.1
        simp only [addRouteChildren]
        exact keeps_trans
          (ihr m child (some record)
            (matchAs.map fun ma => cleanPath (ma ++ "/" ++ child.path))
            (le_refl _))
          (ihcr _ rest record matchAs (le_refl _))
    · intro m aliases children parent rp hle
      cases aliases with
      | nil =>
        simp only [addRouteAliases]
        exact keeps_refl m
      | cons a rest =>
        simp only [List.length_cons] at hle
        have ihr := (ih
          (cfgSize (RouteConfig.mk a none none none children none [] none []))
          (by simp only [cfgSize, List.length_nil]; omega)).1
        have ihar := (ih (1 + 2 * rest.length + cfgSizeList children)
          (by omega)).2.2
        simp only [addRouteAliases]
        exact keeps_trans
          (ihr m (RouteConfig.mk a none none none children none [] none [])
            parent (some rp) (le_refl _))
          (ihar _ rest children parent rp (le_refl _))

/-- Each `addRouteRecord` call is a table extension. -/
theorem addRouteRecord_keeps (m : RMaps) (route : RouteConfig)
    (parent : Option RouteRecord) (matchAs : Option String) :
    keeps m (addRouteRecord m route parent matchAs) :=
  (builder_keeps (cfgSize route)).1 m route parent matchAs (le_refl _)

/-- The registration fold of `createRouteMap` is a table extension. -/
theorem foldl_addRouteRecord_keeps (routes : List RouteConfig) (m : RMaps) :
    keeps m (routes.foldl (fun acc r => addRouteRecord acc r none none) m) := by
  induction routes generalizing m with
  | nil => exact keeps_refl m
  | cons r rest ih =>
    exact keeps_trans (addRouteRecord_keeps m r none none)
      (ih (addRouteRecord m r none none))

/-- The wildcard re-ordering is a permutation, so it preserves every path's
multiplicity in the path list. -/
theorem count_ensureWildcardLast (p : String) (l : List String) :
    List.count p (ensureWildcardLast l) = List.count p l := by
  rw [ensureWildcardLast_eq_partition]
  have h2 := List.filter_append_perm (fun x => decide (x ≠ "*")) l
  simp only [decide_not, Bool.not_not] at h2 ⊢
  exact h2.count_eq p

/-- Scanning an appended list: a hit in the first part is the hit of the
whole list. -/
theorem scanFirstMatch_append_some (tbl : RMaps) (l1 l2 : List String)
    (path : String) (params : Params) (res : String × RouteRecord × Params)
    (h : scanFirstMatch tbl l1 path params = some res) :
    scanFirstMatch tbl (l1 ++ l2) path params = some res := by
  induction l1 with
  | nil => cases h
  | cons q rest ih =>
    simp only [scanFirstMatch, List.cons_append] at h ⊢
    cases hq : dictGet tbl.pathMap q with
    | none =>
      simp only [hq] at h ⊢
      exact ih h
    | some r =>
      simp only [hq] at h ⊢
      cases hm : matchRoute r.regex path params with
      | none =>
        simp only [hm] at h ⊢
        exact ih h
      | some ps =>
        simp only [hm] at h ⊢
        exact h

/-- Scanning an appended list: if the first part misses, the scan continues
into the second part. -/
theorem scanFirstMatch_append_none (tbl : RMaps) (l1 l2 : List String)
    (path : String) (params : Params)
    (h : scanFirstMatch tbl l1 path params = none) :
    scanFirstMatch tbl (l1 ++ l2) path params =
      scanFirstMatch tbl l2 path params := by
  induction l1 with
  | nil => rfl
  | cons q rest ih =>
    simp only [scanFirstMatch, List.cons_append] at h ⊢
    cases hq : dictGet tbl.pathMap q with
    | none =>
      simp only [hq] at h ⊢
      exact ih h
    | some r =>
      simp only [hq] at h ⊢
      cases hm : matchRoute r.regex path params with
      | none =>
        simp only [hm] at h ⊢
        exact ih h
      | some ps =>
        simp only [hm] at h
        exact Option.noConfusion h

/-- The scan only reads the path map at the scanned paths, so two tables
agreeing there scan identically. -/
theorem scanFirstMatch_congr (tbl tbl2 : RMaps) (paths : List String)
    (path : String) (params : Params)
    (h : ∀ q ∈ paths, dictGet tbl2.pathMap q = dictGet tbl.pathMap q) :
    scanFirstMatch tbl2 paths path params =
      scanFirstMatch tbl paths path params := by
  induction paths with
  | nil => rfl
  | cons q rest ih =>
    simp only [scanFirstMatch]
    rw [h q (List.mem_cons_self q rest)]
    have ih2 := ih fun q2 hq2 => h q2 (List.mem_cons_of_mem q hq2)
    cases dictGet tbl.pathMap q with
    | none => exact ih2
    | some r =>
      dsimp only
      cases matchRoute r.regex path params with
      | none => exact ih2
      | some ps => rfl

/-- A scan over paths whose records all fail the pattern test misses. -/
theorem scanFirstMatch_none_of_fails (tbl : RMaps) (paths : List String)
    (path : String) (params : Params)
    (h : ∀ q ∈ paths, ∀ r, dictGet tbl.pathMap q = some r →
      matchRoute r.regex path params = none) :
    scanFirstMatch tbl paths path params = none := by
  induction paths with
  | nil => rfl
  | cons q rest ih =>
    simp only [scanFirstMatch]
    have ih2 := ih fun q2 hq2 => h q2 (List.mem_cons_of_mem q hq2)
    cases hq : dictGet tbl.pathMap q with
    | none => exact ih2
    | some r =>
      dsimp only
      rw [h q (List.mem_cons_self q rest) r hq]
      exact ih2

/-- **C5** (invariants): first registration wins and additive registration
preserves the table. (1) Registering any configuration over a table keeps
every existing path-map binding and the path-list multiplicity of every
already-bound path (a duplicate registration is dropped). For
`createRouteMap routes m` — the `addRoutes` path, seeded with the existing
table `m` (assumed wildcard-reordered with every listed path bound):
(2) every old path-map binding survives with its multiplicity, (3) every old
name-map binding survives, and (4) the path list is the old one extended by
previously-unbound paths (up to the wildcard re-ordering), and any path that
matched in the old table and matches none of the newly added records still
scans to the same record with the same captured params. -/
theorem first_registration_wins_and_additive
    (m : RMaps) (routes : List RouteConfig)
    (hpart : ensureWildcardLast m.pathList = m.pathList)
    (hwf : ∀ q ∈ m.pathList, (dictGet m.pathMap q).isSome = true) :
    (∀ m0 route parent matchAs p r, dictGet m0.pathMap p = some r →
      dictGet (addRouteRecord m0 route parent matchAs).pathMap p = some r ∧
      List.count p (addRouteRecord m0 route parent matchAs).pathList =
        List.count p m0.pathList) ∧
    (∀ p r, dictGet m.pathMap p = some r →
      dictGet (createRouteMap routes m).pathMap p = some r ∧
      List.count p (createRouteMap routes m).pathList =
        List.count p m.pathList) ∧
    (∀ n r, dictGet m.nameMap n = some r →
      dictGet (createRouteMap routes m).nameMap n = some r) ∧
    ∃ suffix,
      (createRouteMap routes m).pathList =
        ensureWildcardLast (m.pathList ++ suffix) ∧
      (∀ p ∈ suffix, dictGet m.pathMap p = none) ∧
      ∀ path params res,
        scanFirstMatch m m.pathList path params = some res →
        (∀ q ∈ suffix, ∀ r,
          dictGet (createRouteMap routes m).pathMap q = some r →
          matchRoute r.regex path params = none) →
        scanFirstMatch (createRouteMap routes m)
          (createRouteMap routes m).pathList path params = some res := by
  obtain ⟨hkp, hkn, S, hS, hSnone⟩ := foldl_addRouteRecord_keeps routes m
  refine ⟨?_, ?_, ?_, S, ?_, hSnone, ?_⟩
  · intro m0 route parent matchAs p r hpr
    obtain ⟨kp, kn, s, hs, hsn⟩ := addRouteRecord_keeps m0 route parent matchAs
    refine ⟨kp p r hpr, ?_⟩
    have hnot : p ∉ s := fun hmem => by
      rw [hsn p hmem] at hpr
      exact Option.noConfusion hpr
    rw [hs, List.count_append, List.count_eq_zero.mpr hnot]
    omega
  · intro p r hpr
    refine ⟨hkp p r hpr, ?_⟩
    have hnot : p ∉ S := fun hmem => by
      rw [hSnone p hmem] at hpr
      exact Option.noConfusion hpr
    rw [show (createRouteMap routes m).pathList =
      ensureWildcardLast ((routes.foldl
        (fun acc r => addRouteRecord acc r none none) m).pathList) from rfl,
      hS, count_ensureWildcardLast, List.count_append,
      List.count_eq_zero.mpr hnot]
    omega
  · intro n r hn
    exact hkn n r hn
  · rw [show (createRouteMap routes m).pathList =
      ensureWildcardLast ((routes.foldl
        (fun acc r => addRouteRecord acc r none none) m).pathList) from rfl,
      hS]
  · intro path params res hold hfail
    have hpm : ∀ q ∈ m.pathList,
        dictGet (createRouteMap routes m).pathMap q = dictGet m.pathMap q := by
      intro q hq
      rcases Option.isSome_iff_exists.mp (hwf q hq) with ⟨r, hr⟩
      rw [hr]
      exact hkp q r hr
    have hA : m.pathList =
        m.pathList.filter (fun x => decide (x ≠ "*")) ++
          m.pathList.filter (fun x => decide (x = "*")) := by
      conv_lhs => rw [← hpart, ensureWildcardLast_eq_partition]
    have hnew : (createRouteMap routes m).pathList =
        m.pathList.filter (fun x => decide (x ≠ "*")) ++
          (S.filter (fun x => decide (x ≠ "*")) ++
            (m.pathList.filter (fun x => decide (x = "*")) ++
              S.filter (fun x => decide (x = "*")))) := by
      rw [show (createRouteMap routes m).pathList =
        ensureWildcardLast ((routes.foldl
          (fun acc r => addRouteRecord acc r none none) m).pathList) from rfl,
        hS, ensureWildcardLast_eq_partition, List.filter_append,
        List.filter_append, List.append_assoc]
    have hcongrNe := scanFirstMatch_congr m (createRouteMap routes m)
      (m.pathList.filter (fun x => decide (x ≠ "*"))) path params
      fun q hq => hpm q (List.mem_of_mem_filter hq)
    have hcongrEq := scanFirstMatch_congr m (createRouteMap routes m)
      (m.pathList.filter (fun x => decide (x = "*"))) path params
      fun q hq => hpm q (List.mem_of_mem_filter hq)
    have hfailS : scanFirstMatch (createRouteMap routes m)
        (S.filter (fun x => decide (x ≠ "*"))) path params = none :=
      scanFirstMatch_none_of_fails _ _ _ _
        fun q hq r hr => hfail q (List.mem_of_mem_filter hq) r hr
    rw [hnew]
    rw [hA] at hold
    cases h1 : scanFirstMatch m
        (m.pathList.filter (fun x => decide (x ≠ "*"))) path params with
    | some x =>
      have h2 := scanFirstMatch_append_some m _
        (m.pathList.filter (fun x => decide (x = "*"))) path params x h1
      rw [h2] at hold
      injection hold with hx
      subst hx
      exact scanFirstMatch_append_some _ _ _ _ _ _ (hcongrNe.trans h1)
    | none =>
      rw [scanFirstMatch_append_none m _ _ _ _ h1] at hold
      rw [scanFirstMatch_append_none _ _ _ _ _ (hcongrNe.trans h1),
        scanFirstMatch_append_none _ _ _ _ _ hfailS]
      exact scanFirstMatch_append_some _ _ _ _ _ _ (hcongrEq.trans hold)

/-- Record and table literals for the C5 witness: a table already holding
`/p` (also named `P`), to which a duplicate `/p` and a fresh `/q` are
added. -/
def recP5 : RouteRecord :=
  .mk "/p" (compileRouteRegex "/p") [("default", 1)] (some "P") none none
    none none []

def tbl5 : RMaps := ⟨["/p"], [("/p", recP5)], [("P", recP5)]⟩

def routes5 : List RouteConfig :=
  [.mk "/p" none (some 2) none [] none [] none [],
   .mk "/q" none (some 3) none [] none [] none []]

/-- Witness for C5 at the concrete seeded table `tbl5` and the addition
`routes5`. -/
theorem first_registration_wins_and_additive_witness :
    (ensureWildcardLast tbl5.pathList = tbl5.pathList) ∧
    (∀ q ∈ tbl5.pathList, (dictGet tbl5.pathMap q).isSome = true) ∧
    ((∀ m0 route parent matchAs p r, dictGet m0.pathMap p = some r →
      dictGet (addRouteRecord m0 route parent matchAs).pathMap p = some r ∧
      List.count p (addRouteRecord m0 route parent matchAs).pathList =
        List.count p m0.pathList) ∧
    (∀ p r, dictGet tbl5.pathMap p = some r →
      dictGet (createRouteMap routes5 tbl5).pathMap p = some r ∧
      List.count p (createRouteMap routes5 tbl5).pathList =
        List.count p tbl5.pathList) ∧
    (∀ n r, dictGet tbl5.nameMap n = some r →
      dictGet (createRouteMap routes5 tbl5).nameMap n = some r) ∧
    ∃ suffix,
      (createRouteMap routes5 tbl5).pathList =
        ensureWildcardLast (tbl5.pathList ++ suffix) ∧
      (∀ p ∈ suffix, dictGet tbl5.pathMap p = none) ∧
      ∀ path params res,
        scanFirstMatch tbl5 tbl5.pathList path params = some res →
        (∀ q ∈ suffix, ∀ r,
          dictGet (createRouteMap routes5 tbl5).pathMap q = some r →
          matchRoute r.regex path params = none) →
        scanFirstMatch (createRouteMap routes5 tbl5)
          (createRouteMap routes5 tbl5).pathList path params = some res) :=
  ⟨by decide, by decide,
    first_registration_wins_and_additive tbl5 routes5 (by decide) (by decide)⟩

end VRouter
